import Mathlib

/-!
Verification of the NewFEM acquisition/detection/storage pipeline
(`backends/app/core/`): a shallow embedding in Lean 4 of the
`DataStore` ring-buffer store, the `EnhancedPeakDetector` sliding-window
detector, the `DataProcessor` acquisition loop's stop protocol, and the
`SocketServer` admission/broadcast logic, together with theorems about them.

Modelling conventions:
* Python `float` values are modelled as exact rationals (`ℚ`).
* Fallible Python operations (list indexing, `max`/`min` on a possibly
  empty list, `list.index`, division) are modelled in the `Option` monad:
  `none` models a raised exception.
* `x ** 0.5` on floats is irrational in general; it is modelled by an
  arbitrary function parameter `sqrtQ : ℚ → ℚ`, assumed nonnegative where
  a theorem needs it (float `sqrt` of a positive argument is nonnegative).
* Python list slices (which never raise) are modelled by `pySlice` with
  Python's index-normalisation rules, including negative indices.
-/

namespace Py

/-- Python slice-bound normalisation: negative indices count from the end,
and bounds are clamped to `[0, len]`. -/
def sliceIdx (len : ℕ) (i : ℤ) : ℕ :=
  if i < 0 then ((len : ℤ) + i).toNat else min len i.toNat

/-- Python slice `l[a:b]` (never raises). -/
def slice {α : Type} (l : List α) (a b : ℤ) : List α :=
  (l.take (sliceIdx l.length b)).drop (sliceIdx l.length a)

/-- Python slice `l[a:]`. -/
def sliceFrom {α : Type} (l : List α) (a : ℤ) : List α :=
  slice l a l.length

/-- Python slice `l[:b]`. -/
def sliceTo {α : Type} (l : List α) (b : ℤ) : List α :=
  slice l 0 b

/-- Python float division; `none` models `ZeroDivisionError`. -/
def div (a b : ℚ) : Option ℚ :=
  if b = 0 then none else some (a / b)

/-- Python list indexing at a nonnegative index; `none` models `IndexError`. -/
def get (l : List ℚ) (i : ℕ) : Option ℚ := l.get? i

/-- Python `max(l)`; `none` models the `ValueError` on an empty list. -/
def max? (l : List ℚ) : Option ℚ :=
  match l with
  | [] => none
  | x :: xs => some (xs.foldl max x)

/-- Python `min(l)`; `none` models the `ValueError` on an empty list. -/
def min? (l : List ℚ) : Option ℚ :=
  match l with
  | [] => none
  | x :: xs => some (xs.foldl min x)

/-- Python `sum(l)` (left fold from 0). -/
def sum (l : List ℚ) : ℚ := l.foldl (· + ·) 0

/-- Python `l.index(x)`; `none` models the `ValueError` when absent. -/
def indexOf (l : List ℚ) (x : ℚ) : Option ℕ :=
  l.findIdx? (fun y => y = x)

/-- Insert `x` into a sorted list, after every element strictly below it and
before ties — the unique stable position. -/
def insertLe {α : Type} (le : α → α → Bool) (x : α) : List α → List α
  | [] => [x]
  | y :: ys => if le y x && !(le x y) then y :: insertLe le x ys else x :: y :: ys

/-- Python's stable sort (`sorted`, `list.sort`), modelled by a stable
insertion sort: for a total preorder both produce the unique stable
ordering. -/
def pySort {α : Type} (le : α → α → Bool) : List α → List α
  | [] => []
  | x :: xs => insertLe le x (pySort le xs)

/-- Python `sorted(l)` for floats (stable ascending sort). -/
def sortedQ (l : List ℚ) : List ℚ := pySort (fun a b => a ≤ b) l

/-- Python `range(a, b)` as a list. -/
def range (a b : ℤ) : List ℕ :=
  (List.range (b - a).toNat).map (fun k => a.toNat + k)

/-- Python `range(0, stop, step)` for a positive step, as a list. -/
def rangeStep (stop step : ℕ) : List ℕ :=
  (List.range ((stop + step - 1) / step)).map (· * step)

/-- Python `range(a, b, -1)` (counting down, excluding `b`) as a list. -/
def rangeDown (a b : ℤ) : List ℕ :=
  ((List.range (a - b).toNat).map (fun k => b.toNat + 1 + k)).reverse

theorem length_insertLe {α : Type} (le : α → α → Bool) (x : α) (l : List α) :
    (insertLe le x l).length = l.length + 1 := by
  induction l with
  | nil => rfl
  | cons y ys ih =>
    unfold insertLe
    split
    · simp only [List.length_cons, ih]
    · rfl

theorem mem_insertLe {α : Type} (le : α → α → Bool) (x : α) (l : List α)
    (z : α) : z ∈ insertLe le x l ↔ z = x ∨ z ∈ l := by
  induction l with
  | nil =>
    unfold insertLe
    simp
  | cons y ys ih =>
    unfold insertLe
    split
    · simp only [List.mem_cons, ih]
      tauto
    · simp only [List.mem_cons]

theorem length_pySort {α : Type} (le : α → α → Bool) (l : List α) :
    (pySort le l).length = l.length := by
  induction l with
  | nil => rfl
  | cons x xs ih =>
    unfold pySort
    rw [length_insertLe, ih]
    rfl

theorem mem_pySort {α : Type} (le : α → α → Bool) (l : List α) (z : α) :
    z ∈ pySort le l ↔ z ∈ l := by
  induction l with
  | nil => exact Iff.rfl
  | cons x xs ih =>
    unfold pySort
    rw [mem_insertLe]
    simp only [List.mem_cons, ih]

theorem max?_isSome {l : List ℚ} (h : l ≠ []) : (max? l).isSome := by
  cases l with
  | nil => exact absurd rfl h
  | cons x xs => simp [max?]

theorem min?_isSome {l : List ℚ} (h : l ≠ []) : (min? l).isSome := by
  cases l with
  | nil => exact absurd rfl h
  | cons x xs => simp [min?]

theorem div_isSome {a b : ℚ} (h : b ≠ 0) : (div a b).isSome := by
  simp [div, h]

theorem get_isSome {l : List ℚ} {i : ℕ} (h : i < l.length) : (get l i).isSome := by
  unfold get
  rw [List.get?_eq_getElem?, List.getElem?_eq_getElem h]
  rfl

theorem indexOf_isSome {l : List ℚ} {x : ℚ} (h : x ∈ l) : (indexOf l x).isSome := by
  unfold indexOf
  rw [List.findIdx?_isSome]
  exact List.any_eq_true.2 ⟨x, h, by simp⟩

end Py

/-- Generic monadic fold over a list in `Option` is `some` when every step is. -/
theorem foldlM_isSome {α β : Type} (f : α → β → Option α) (l : List β) (a : α)
    (h : ∀ a' b, b ∈ l → (f a' b).isSome) : (l.foldlM f a).isSome := by
  induction l generalizing a with
  | nil => simp
  | cons b t ih =>
    simp only [List.foldlM_cons]
    obtain ⟨a', ha'⟩ := Option.isSome_iff_exists.1 (h a b (by simp))
    rw [ha']
    exact ih a' (fun a'' b' hb' => h a'' b' (List.mem_cons_of_mem _ hb'))

/-- Generic invariant preservation through a monadic fold in `Option`. -/
theorem foldlM_invariant {α β : Type} {f : α → β → Option α} {l : List β} {a : α}
    {P : α → Prop} (h0 : P a)
    (hstep : ∀ a' b a'', b ∈ l → P a' → f a' b = some a'' → P a'') :
    ∀ r, l.foldlM f a = some r → P r := by
  induction l generalizing a with
  | nil =>
    intro r hr
    simp only [List.foldlM_nil] at hr
    cases Option.some_inj.1 hr
    exact h0
  | cons b t ih =>
    intro r hr
    simp only [List.foldlM_cons] at hr
    cases hfa : f a b with
    | none => rw [hfa] at hr; simp at hr
    | some a' =>
      rw [hfa] at hr
      simp only [Option.bind_eq_bind, Option.some_bind] at hr
      exact ih (hstep a b a' (by simp) h0 hfa)
        (fun x y z hy hx hxy => hstep x y z (List.mem_cons_of_mem _ hy) hx hxy) r hr

/-! ## DataStore (`backends/app/core/data_store.py`) and models (`backends/app/models.py`) -/

namespace NewFEM

/-- `SystemStatus` from `models.py`. -/
inductive SystemStatus
  | running
  | stopped
  | error
deriving DecidableEq, Repr

/-- `RoiConfig` from `models.py` (coordinates are nonnegative ints in pydantic;
modelled as `ℤ` so `width`/`height` keep the source's `abs`). -/
structure RoiConfig where
  x1 : ℤ
  y1 : ℤ
  x2 : ℤ
  y2 : ℤ
deriving DecidableEq, Repr

/-- `RoiConfig.width`. -/
def RoiConfig.width (c : RoiConfig) : ℤ := |c.x2 - c.x1|

/-- `RoiConfig.height`. -/
def RoiConfig.height (c : RoiConfig) : ℤ := |c.y2 - c.y1|

/-- `RoiConfig.validate_coordinates`. -/
def RoiConfig.validate_coordinates (c : RoiConfig) : Bool :=
  c.x1 < c.x2 && c.y1 < c.y2 && c.width > 0 && c.height > 0

/-- `Frame` from `data_store.py` (timestamps abstracted to `ℤ`). -/
structure Frame where
  index : ℕ
  timestamp : ℤ
  value : ℚ
deriving DecidableEq, Repr

/-- `RoiFrame` from `data_store.py`. -/
structure RoiFrame where
  index : ℕ
  timestamp : ℤ
  gray_value : ℚ
  roi_config : RoiConfig
  frame_count : ℕ
  capture_duration : ℚ
deriving DecidableEq, Repr

/-- The ROI ring-buffer capacity hard-coded in `DataStore.__init__`. -/
def roiBufferSize : ℕ := 500

/-- The mutable state of `DataStore`.  `fps` is the `settings.fps` value read
by `_update_baseline_locked` (60 by default, always positive in a deployed
configuration). -/
structure DataStore where
  bufferSize : ℕ
  fps : ℕ
  frames : List Frame
  roiFrames : List RoiFrame
  roiFrameCount : ℕ
  frameCount : ℕ
  currentValue : ℚ
  baseline : ℚ
  peakSignal : Option ℤ
  lastPeakSignal : Option ℤ
  status : SystemStatus
  roiConfig : RoiConfig
  roiConfigured : Bool
  enhancedPeakColor : Option String
  enhancedPeakConfidence : ℚ
  enhancedPeakThreshold : ℚ
  enhancedInPeakRegion : Bool
  enhancedPeakFrameCount : ℕ
deriving DecidableEq, Repr

/-- The default ROI configuration set in `DataStore.__init__` and in `reset`. -/
def defaultRoiConfig : RoiConfig := ⟨0, 0, 200, 150⟩

/-- A fresh `DataStore(buffer_size)`. -/
def DataStore.fresh (bufferSize fps : ℕ) : DataStore where
  bufferSize := bufferSize
  fps := fps
  frames := []
  roiFrames := []
  roiFrameCount := 0
  frameCount := 0
  currentValue := 0
  baseline := 0
  peakSignal := none
  lastPeakSignal := none
  status := .stopped
  roiConfig := defaultRoiConfig
  roiConfigured := false
  enhancedPeakColor := none
  enhancedPeakConfidence := 0
  enhancedPeakThreshold := 0
  enhancedInPeakRegion := false
  enhancedPeakFrameCount := 0

/-- `collections.deque(maxlen=c).append`: appending to a full deque drops the
oldest element. -/
def dequeAppend {α : Type} (maxlen : ℕ) (l : List α) (x : α) : List α :=
  if l.length < maxlen then l ++ [x]
  else (l ++ [x]).drop (l.length + 1 - maxlen)

/-- The last `c` elements of a list. -/
def takeLast {α : Type} (c : ℕ) (l : List α) : List α :=
  l.drop (l.length - c)

/-- `DataStore._update_baseline_locked`: mean of the last
`min(len(frames), settings.fps)` values (`0` when empty). -/
def DataStore.updateBaseline (frames : List Frame) (fps : ℕ) : ℚ :=
  if frames = [] then 0
  else
    let windowSize := min frames.length fps
    let recentValues := (Py.sliceFrom frames (-(windowSize : ℤ))).map Frame.value
    Py.sum recentValues / (windowSize : ℚ)

/-- `DataStore.add_frame` (the body of the critical section; the caller's
timestamp, or `datetime.utcnow()`, is the explicit `ts` argument). -/
def DataStore.add_frame (s : DataStore) (value : ℚ) (ts : ℤ)
    (peak_signal : Option ℤ) : DataStore × Frame :=
  let frameCount := s.frameCount + 1
  let frame : Frame := ⟨frameCount, ts, value⟩
  let frames := dequeAppend s.bufferSize s.frames frame
  ({ s with
      frameCount := frameCount
      frames := frames
      currentValue := value
      baseline := DataStore.updateBaseline frames s.fps
      peakSignal := peak_signal
      lastPeakSignal := if peak_signal.isSome then peak_signal else s.lastPeakSignal },
    frame)

/-- `DataStore.get_series`. -/
def DataStore.get_series (s : DataStore) (count : ℕ) : List Frame :=
  if count ≥ s.frames.length then s.frames
  else Py.sliceFrom s.frames (-(count : ℤ))

/-- `DataStore.get_status_snapshot`. -/
def DataStore.get_status_snapshot (s : DataStore) :
    SystemStatus × ℕ × ℚ × Option ℤ × ℕ × ℚ :=
  (s.status, s.frameCount, s.currentValue, s.peakSignal, s.frames.length, s.baseline)

/-- `DataStore.set_status`. -/
def DataStore.set_status (s : DataStore) (st : SystemStatus) : DataStore :=
  { s with status := st }

/-- `DataStore.reset`: clears the main frame buffer and derived status and
restores the default ROI configuration.  (It does not touch the ROI frame
buffer; that is `reset_roi_history`.) -/
def DataStore.reset (s : DataStore) : DataStore :=
  { s with
      frames := []
      frameCount := 0
      currentValue := 0
      baseline := 0
      peakSignal := none
      lastPeakSignal := none
      roiConfig := defaultRoiConfig
      roiConfigured := false }

/-- `DataStore.set_roi_config`: validates, then either applies both fields or
raises `ValueError` leaving the state untouched.  The returned `Option String`
is the raised error message, if any. -/
def DataStore.set_roi_config (s : DataStore) (roi_config : RoiConfig) :
    DataStore × Option String :=
  if roi_config.validate_coordinates then
    ({ s with roiConfig := roi_config, roiConfigured := true }, none)
  else
    (s, some "Invalid ROI coordinates")

/-- `DataStore.add_enhanced_peak`. -/
def DataStore.add_enhanced_peak (s : DataStore) (peak_signal : Option ℤ)
    (peak_color : Option String) (peak_confidence threshold : ℚ)
    (in_peak_region : Bool) (frame_count : ℕ) : DataStore :=
  { s with
      peakSignal := peak_signal
      lastPeakSignal :=
        if peak_signal = some 1 then peak_signal
        else if peak_signal = none ∧ s.lastPeakSignal = some 1 then none
        else s.lastPeakSignal
      enhancedPeakColor := peak_color
      enhancedPeakConfidence := peak_confidence
      enhancedPeakThreshold := threshold
      enhancedInPeakRegion := in_peak_region
      enhancedPeakFrameCount := frame_count }

/-- `DataStore.add_roi_frame`. -/
def DataStore.add_roi_frame (s : DataStore) (gray_value : ℚ)
    (roi_config : RoiConfig) (frame_count : ℕ) (capture_duration : ℚ)
    (ts : ℤ) : DataStore × RoiFrame :=
  let roiFrameCount := s.roiFrameCount + 1
  let roiFrame : RoiFrame :=
    ⟨roiFrameCount, ts, gray_value, roi_config, frame_count, capture_duration⟩
  ({ s with
      roiFrameCount := roiFrameCount
      roiFrames := dequeAppend roiBufferSize s.roiFrames roiFrame },
    roiFrame)

/-- `DataStore.get_roi_series`. -/
def DataStore.get_roi_series (s : DataStore) (count : ℕ) : List RoiFrame :=
  if count ≥ s.roiFrames.length then s.roiFrames
  else Py.sliceFrom s.roiFrames (-(count : ℤ))

/-- `DataStore.reset_roi_history`. -/
def DataStore.reset_roi_history (s : DataStore) : DataStore :=
  { s with roiFrames := [], roiFrameCount := 0 }

/-- One mutating `DataStore` operation, for stating buffer invariants over
arbitrary operation sequences. -/
inductive StoreOp
  | addFrame (v : ℚ) (ts : ℤ) (p : Option ℤ)
  | addRoiFrame (g : ℚ) (rc : RoiConfig) (fc : ℕ) (cd : ℚ) (ts : ℤ)
  | setStatus (st : SystemStatus)
  | reset
  | resetRoiHistory
  | setRoiConfig (rc : RoiConfig)
  | addEnhancedPeak (p : Option ℤ) (c : Option String) (conf thr : ℚ)
      (ir : Bool) (fc : ℕ)

/-- Apply one `StoreOp`. -/
def applyOp (s : DataStore) : StoreOp → DataStore
  | .addFrame v ts p => (s.add_frame v ts p).1
  | .addRoiFrame g rc fc cd ts => (s.add_roi_frame g rc fc cd ts).1
  | .setStatus st => s.set_status st
  | .reset => s.reset
  | .resetRoiHistory => s.reset_roi_history
  | .setRoiConfig rc => (s.set_roi_config rc).1
  | .addEnhancedPeak p c conf thr ir fc => s.add_enhanced_peak p c conf thr ir fc

/-- Apply a sequence of `StoreOp`s. -/
def applyOps (s : DataStore) (ops : List StoreOp) : DataStore :=
  ops.foldl applyOp s

/-- Run `add_frame` over a list of `(value, timestamp)` pairs (no peak flag). -/
def applyAdds (s : DataStore) (vs : List (ℚ × ℤ)) : DataStore :=
  vs.foldl (fun s vt => (s.add_frame vt.1 vt.2 none).1) s

/-- The frames produced by successive `add_frame` calls starting at
frame count `n0`. -/
def enumFramesFrom (n0 : ℕ) : List (ℚ × ℤ) → List Frame
  | [] => []
  | (v, t) :: vs => ⟨n0 + 1, t, v⟩ :: enumFramesFrom (n0 + 1) vs

end NewFEM

namespace NewFEM

theorem dequeAppend_eq_takeLast {α : Type} (c : ℕ) (l : List α) (x : α) :
    dequeAppend c l x = takeLast c (l ++ [x]) := by
  unfold dequeAppend takeLast
  by_cases h : l.length < c
  · rw [if_pos h]
    have : (l ++ [x]).length - c = 0 := by simp; omega
    rw [this, List.drop_zero]
  · rw [if_neg h]
    congr 1
    simp

theorem takeLast_length {α : Type} (c : ℕ) (l : List α) :
    (takeLast c l).length = min c l.length := by
  unfold takeLast
  rw [List.length_drop]
  omega

theorem takeLast_of_le {α : Type} {c : ℕ} {l : List α} (h : l.length ≤ c) :
    takeLast c l = l := by
  unfold takeLast
  have : l.length - c = 0 := by omega
  rw [this, List.drop_zero]

theorem takeLast_takeLast_append {α : Type} (c : ℕ) (l m : List α) :
    takeLast c (takeLast c l ++ m) = takeLast c (l ++ m) := by
  by_cases h : l.length ≤ c
  · rw [takeLast_of_le h]
  · unfold takeLast
    have hk : l.length - c ≤ l.length := by omega
    rw [← List.drop_append_of_le_length hk, List.drop_drop]
    congr 1
    simp only [List.length_drop, List.length_append]
    omega

theorem enumFramesFrom_length (vs : List (ℚ × ℤ)) :
    ∀ n0, (enumFramesFrom n0 vs).length = vs.length := by
  induction vs with
  | nil => intro n0; rfl
  | cons vt vs ih =>
    intro n0
    obtain ⟨v, t⟩ := vt
    simp [enumFramesFrom, ih]

theorem applyAdds_spec (vs : List (ℚ × ℤ)) : ∀ s : DataStore,
    s.frames.length ≤ s.bufferSize →
    (applyAdds s vs).frames
        = takeLast s.bufferSize (s.frames ++ enumFramesFrom s.frameCount vs)
    ∧ (applyAdds s vs).frameCount = s.frameCount + vs.length
    ∧ (applyAdds s vs).bufferSize = s.bufferSize := by
  induction vs with
  | nil =>
    intro s h
    refine ⟨?_, rfl, rfl⟩
    simp [applyAdds, enumFramesFrom, takeLast_of_le h]
  | cons vt vs ih =>
    intro s h
    obtain ⟨v, t⟩ := vt
    have hstep : applyAdds s ((v, t) :: vs) = applyAdds (s.add_frame v t none).1 vs := rfl
    set s' := (s.add_frame v t none).1 with hs'
    have hframes : s'.frames
        = takeLast s.bufferSize (s.frames ++ [⟨s.frameCount + 1, t, v⟩]) := by
      rw [hs']
      simp only [DataStore.add_frame]
      exact dequeAppend_eq_takeLast _ _ _
    have hbuf : s'.bufferSize = s.bufferSize := rfl
    have hcount : s'.frameCount = s.frameCount + 1 := rfl
    have hlen : s'.frames.length ≤ s'.bufferSize := by
      rw [hframes, hbuf, takeLast_length]
      omega
    obtain ⟨h1, h2, h3⟩ := ih s' hlen
    refine ⟨?_, ?_, ?_⟩
    · rw [hstep, h1, hframes, hbuf, hcount, takeLast_takeLast_append]
      simp [enumFramesFrom]
    · rw [hstep, h2, hcount]
      simp only [List.length_cons]
      omega
    · rw [hstep, h3, hbuf]

theorem dequeAppend_length_le {α : Type} (c : ℕ) (l : List α) (x : α) :
    (dequeAppend c l x).length ≤ max c (l.length + 1) := by
  rw [dequeAppend_eq_takeLast, takeLast_length]
  simp only [List.length_append, List.length_cons, List.length_nil]
  omega

theorem applyOp_invariant (s : DataStore) (op : StoreOp)
    (h : s.frames.length ≤ s.bufferSize) :
    (applyOp s op).frames.length ≤ (applyOp s op).bufferSize
    ∧ (applyOp s op).bufferSize = s.bufferSize := by
  cases op with
  | addFrame v ts p =>
    refine ⟨?_, rfl⟩
    show (dequeAppend s.bufferSize s.frames _).length ≤ s.bufferSize
    rw [dequeAppend_eq_takeLast, takeLast_length]
    omega
  | addRoiFrame g rc fc cd ts => exact ⟨h, rfl⟩
  | setStatus st => exact ⟨h, rfl⟩
  | reset => exact ⟨by simp [applyOp, DataStore.reset], rfl⟩
  | resetRoiHistory => exact ⟨h, rfl⟩
  | setRoiConfig rc =>
    simp only [applyOp, DataStore.set_roi_config]
    by_cases hv : rc.validate_coordinates
    · rw [if_pos hv]; exact ⟨h, rfl⟩
    · rw [if_neg hv]; exact ⟨h, rfl⟩
  | addEnhancedPeak p c conf thr ir fc => exact ⟨h, rfl⟩

theorem applyOps_invariant (ops : List StoreOp) : ∀ s : DataStore,
    s.frames.length ≤ s.bufferSize →
    (applyOps s ops).frames.length ≤ (applyOps s ops).bufferSize
    ∧ (applyOps s ops).bufferSize = s.bufferSize := by
  induction ops with
  | nil => intro s h; exact ⟨h, rfl⟩
  | cons op ops ih =>
    intro s h
    have hstep : applyOps s (op :: ops) = applyOps (applyOp s op) ops := rfl
    obtain ⟨h1, h2⟩ := applyOp_invariant s op h
    obtain ⟨h3, h4⟩ := ih (applyOp s op) h1
    exact ⟨hstep ▸ h3, by rw [hstep, h4, h2]⟩

end NewFEM

namespace NewFEM

/-- C1: on a fresh store of capacity `c > 0`, after `n ≤ c` `add_frame` calls
`get_series(n)` returns exactly those `n` frames in insertion (oldest-first)
order; after `c + k` calls only the most recent `c` frames remain in the
buffer; and the buffer length never exceeds `c` after any sequence of store
operations. -/
theorem c1_ring_buffer (c fps : ℕ) (_hc : 0 < c) (vs : List (ℚ × ℤ)) :
    (vs.length ≤ c →
      (applyAdds (DataStore.fresh c fps) vs).get_series vs.length
        = enumFramesFrom 0 vs)
    ∧ (∀ k, vs.length = c + k →
      (applyAdds (DataStore.fresh c fps) vs).frames = (enumFramesFrom 0 vs).drop k)
    ∧ (∀ ops : List StoreOp,
      (applyOps (DataStore.fresh c fps) ops).frames.length ≤ c) := by
  have hfresh : (DataStore.fresh c fps).frames.length ≤ (DataStore.fresh c fps).bufferSize := by
    simp [DataStore.fresh]
  obtain ⟨h1, h2, h3⟩ := applyAdds_spec vs (DataStore.fresh c fps) hfresh
  have hframes : (applyAdds (DataStore.fresh c fps) vs).frames
      = takeLast c (enumFramesFrom 0 vs) := by
    rw [h1]; rfl
  refine ⟨?_, ?_, ?_⟩
  · intro hn
    have hlen : (enumFramesFrom 0 vs).length ≤ c := by
      rw [enumFramesFrom_length]; exact hn
    have : (applyAdds (DataStore.fresh c fps) vs).frames = enumFramesFrom 0 vs := by
      rw [hframes, takeLast_of_le hlen]
    unfold DataStore.get_series
    rw [this, if_pos]
    rw [enumFramesFrom_length]
  · intro k hk
    rw [hframes]
    unfold takeLast
    rw [enumFramesFrom_length]
    congr 1
    omega
  · intro ops
    obtain ⟨ha, hb⟩ := applyOps_invariant ops (DataStore.fresh c fps) hfresh
    rw [hb] at ha
    exact ha

/-- C1 witness: the three conjuncts instantiated at capacity 2 with concrete
frame sequences. -/
theorem c1_ring_buffer_witness :
    (applyAdds (DataStore.fresh 2 60) [(5, 0), (6, 1)]).get_series 2
      = enumFramesFrom 0 [(5, 0), (6, 1)]
    ∧ (applyAdds (DataStore.fresh 2 60) [(5, 0), (6, 1), (7, 2)]).frames
      = (enumFramesFrom 0 [(5, 0), (6, 1), (7, 2)]).drop 1
    ∧ (applyOps (DataStore.fresh 2 60)
        [.addFrame 5 0 none, .addFrame 6 1 none, .addFrame 7 2 none]).frames.length ≤ 2 :=
  ⟨(c1_ring_buffer 2 60 (by decide) [(5, 0), (6, 1)]).1 (by decide),
   (c1_ring_buffer 2 60 (by decide) [(5, 0), (6, 1), (7, 2)]).2.1 1 (by decide),
   (c1_ring_buffer 2 60 (by decide) []).2.2 _⟩

/-- C4 counterexample: `reset()` does **not** empty the ROI ring buffer — a
store holding one ROI frame still holds it after `reset()`. -/
theorem c4_reset_counterexample :
    ((DataStore.fresh 2 60).add_roi_frame 10 defaultRoiConfig 1 (1/2) 0).1.reset.roiFrames
      ≠ [] := by
  decide

/-- C4 (amended): after `reset()` the main frame buffer is empty and the
derived status fields (frame count, current value, baseline, peak signals) and
the ROI configuration are back to their initial values, but the ROI frame
buffer is untouched; the ROI buffer is emptied by `reset_roi_history()`. -/
theorem c4_reset_spec (s : DataStore) :
    s.reset.frames = [] ∧ s.reset.frameCount = 0 ∧ s.reset.currentValue = 0
    ∧ s.reset.baseline = 0 ∧ s.reset.peakSignal = none
    ∧ s.reset.lastPeakSignal = none ∧ s.reset.roiConfigured = false
    ∧ s.reset.roiConfig = defaultRoiConfig
    ∧ s.reset.roiFrames = s.roiFrames
    ∧ s.reset_roi_history.roiFrames = []
    ∧ s.reset_roi_history.roiFrameCount = 0 := by
  refine ⟨rfl, rfl, rfl, rfl, rfl, rfl, rfl, rfl, rfl, rfl, rfl⟩

/-- C6: `set_roi_config(cfg)` raises exactly when `cfg` violates
`x1 < x2 ∧ y1 < y2`; on failure the stored ROI config and the configured flag
are unchanged, and on success the configured flag is set and the config is
stored. -/
theorem c6_set_roi_config_spec (s : DataStore) (cfg : RoiConfig) :
    ((s.set_roi_config cfg).2.isSome ↔ ¬(cfg.x1 < cfg.x2 ∧ cfg.y1 < cfg.y2))
    ∧ ((s.set_roi_config cfg).2.isSome → (s.set_roi_config cfg).1 = s)
    ∧ ((s.set_roi_config cfg).2 = none →
        (s.set_roi_config cfg).1.roiConfigured = true
        ∧ (s.set_roi_config cfg).1.roiConfig = cfg) := by
  have hval : cfg.validate_coordinates = true ↔ (cfg.x1 < cfg.x2 ∧ cfg.y1 < cfg.y2) := by
    unfold RoiConfig.validate_coordinates RoiConfig.width RoiConfig.height
    constructor
    · intro h
      simp only [Bool.and_eq_true, decide_eq_true_eq] at h
      exact ⟨h.1.1.1, h.1.1.2⟩
    · intro ⟨h1, h2⟩
      simp only [Bool.and_eq_true, decide_eq_true_eq]
      refine ⟨⟨⟨h1, h2⟩, ?_⟩, ?_⟩
      · exact abs_pos.mpr (by omega)
      · exact abs_pos.mpr (by omega)
  unfold DataStore.set_roi_config
  by_cases hv : cfg.validate_coordinates
  · rw [if_pos hv]
    refine ⟨?_, ?_, ?_⟩
    · simp only [Option.isSome_none, Bool.false_eq_true, false_iff, not_not]
      exact hval.1 hv
    · intro h; simp at h
    · intro _; exact ⟨rfl, rfl⟩
  · rw [if_neg hv]
    refine ⟨?_, ?_, ?_⟩
    · simp only [Option.isSome_some, true_iff]
      intro hcontra
      exact hv (hval.2 hcontra)
    · intro _; rfl
    · intro h; simp at h

/-- C6 witness: an invalid config is rejected leaving the store unchanged;
a valid one sets the configured flag. -/
theorem c6_set_roi_config_witness :
    ((DataStore.fresh 2 60).set_roi_config ⟨0, 0, 0, 0⟩).1 = DataStore.fresh 2 60
    ∧ ¬((0 : ℤ) < 0 ∧ (0 : ℤ) < 0)
    ∧ ((DataStore.fresh 2 60).set_roi_config ⟨0, 0, 10, 10⟩).1.roiConfigured = true :=
  ⟨(c6_set_roi_config_spec (DataStore.fresh 2 60) ⟨0, 0, 0, 0⟩).2.1 (by decide),
   by decide,
   ((c6_set_roi_config_spec (DataStore.fresh 2 60) ⟨0, 0, 10, 10⟩).2.2 (by decide)).1⟩

/-- C10: on a store with a non-empty main buffer, `get_series(0)` returns the
entire buffered frame list (the slice `frames[-0:]` selects all frames), not
the empty list. -/
theorem c10_get_series_zero (s : DataStore) (h : s.frames ≠ []) :
    s.get_series 0 = s.frames ∧ s.get_series 0 ≠ [] := by
  have hlen : 0 < s.frames.length := List.length_pos.2 h
  have hmain : s.get_series 0 = s.frames := by
    unfold DataStore.get_series
    by_cases hz : (0 : ℕ) ≥ s.frames.length
    · rw [if_pos hz]
    · rw [if_neg hz]
      show Py.sliceFrom s.frames (-(0 : ℤ)) = s.frames
      have h1 : Py.sliceIdx s.frames.length ((s.frames.length : ℕ) : ℤ) = s.frames.length := by
        unfold Py.sliceIdx
        simp
      have h2 : Py.sliceIdx s.frames.length (-(0 : ℤ)) = 0 := by
        unfold Py.sliceIdx
        simp
      unfold Py.sliceFrom Py.slice
      rw [h1, h2, List.drop_zero, List.take_length]
  exact ⟨hmain, hmain ▸ h⟩

/-- C10 witness: a single-frame store returns its whole buffer for `n = 0`. -/
theorem c10_get_series_zero_witness :
    (applyAdds (DataStore.fresh 2 60) [(5, 0)]).get_series 0
      = (applyAdds (DataStore.fresh 2 60) [(5, 0)]).frames :=
  (c10_get_series_zero (applyAdds (DataStore.fresh 2 60) [(5, 0)]) (by decide)).1

end NewFEM

/-! ## DataProcessor stop protocol (`backends/app/core/processor.py`)

`stop()` sets the stop event, sets the store status to `STOPPED`, and then
`join`s the loop thread **with a 2-second timeout** — returning even if the
thread has not exited (the source logs "thread did not stop within timeout"
in that case).  Real time is abstracted: the bounded join grants the loop
thread some scheduler-dependent number `k` of execution steps before `stop()`
returns (`k = 0` models a thread blocked, e.g. inside a slow ROI capture, for
longer than the timeout).  One loop iteration is discretised into the
top-of-loop `stop_event` check followed by the body that appends one frame to
the store. -/

namespace NewFEM

/-- Position of the `_run` loop thread: at the top-of-loop `stop_event`
check, or inside the body of an iteration (which will append a frame). -/
inductive LoopPC
  | atCheck
  | midTick
deriving DecidableEq, Repr

/-- The state shared by `DataProcessor.stop()` and the `_run` loop thread. -/
structure ProcState where
  stopEvent : Bool
  status : SystemStatus
  threadAlive : Bool
  pc : LoopPC
  framesWritten : ℕ
deriving DecidableEq, Repr

/-- One execution step of the `_run` loop thread: the `while not
self._stop_event.is_set()` check, or the tick body ending in
`data_store.add_frame`. -/
def threadStep (s : ProcState) : ProcState :=
  if s.threadAlive = false then s
  else
    match s.pc with
    | .atCheck =>
      if s.stopEvent then { s with threadAlive := false }
      else { s with pc := .midTick }
    | .midTick => { s with framesWritten := s.framesWritten + 1, pc := .atCheck }

/-- `n` thread steps. -/
def threadSteps (n : ℕ) (s : ProcState) : ProcState :=
  match n with
  | 0 => s
  | n + 1 => threadSteps n (threadStep s)

/-- `DataProcessor.stop()`: set the stop event, set status `STOPPED`, then
join the loop thread; the bounded (2 s) join is modelled by the loop thread
taking `joinSteps` scheduler-granted steps before `stop()` returns. -/
def stopProc (s : ProcState) (joinSteps : ℕ) : ProcState :=
  threadSteps joinSteps { s with stopEvent := true, status := .stopped }

/-- A running processor mid-tick (the loop body has passed the stop check and
has not yet appended its frame). -/
def procMidTick : ProcState :=
  ⟨false, .running, true, .midTick, 0⟩

theorem threadStep_dead (s : ProcState) (h : s.threadAlive = false) :
    threadStep s = s := by
  unfold threadStep
  rw [if_pos h]

theorem threadSteps_dead (n : ℕ) (s : ProcState) (h : s.threadAlive = false) :
    threadSteps n s = s := by
  induction n with
  | zero => rfl
  | succ n ih =>
    show threadSteps n (threadStep s) = s
    rw [threadStep_dead s h, ih]

theorem threadStep_stopEvent (s : ProcState) :
    (threadStep s).stopEvent = s.stopEvent := by
  unfold threadStep
  by_cases h : s.threadAlive = false
  · rw [if_pos h]
  · rw [if_neg h]
    cases s.pc with
    | atCheck =>
      by_cases he : s.stopEvent
      · simp [he]
      · simp [he]
    | midTick => rfl

theorem threadStep_status (s : ProcState) :
    (threadStep s).status = s.status := by
  unfold threadStep
  by_cases h : s.threadAlive = false
  · rw [if_pos h]
  · rw [if_neg h]
    cases s.pc with
    | atCheck =>
      by_cases he : s.stopEvent
      · simp [he]
      · simp [he]
    | midTick => rfl

theorem threadSteps_status (n : ℕ) (s : ProcState) :
    (threadSteps n s).status = s.status := by
  induction n generalizing s with
  | zero => rfl
  | succ n ih =>
    show (threadSteps n (threadStep s)).status = s.status
    rw [ih, threadStep_status]

theorem threadSteps_stopEvent (n : ℕ) (s : ProcState) :
    (threadSteps n s).stopEvent = s.stopEvent := by
  induction n generalizing s with
  | zero => rfl
  | succ n ih =>
    show (threadSteps n (threadStep s)).stopEvent = s.stopEvent
    rw [ih, threadStep_stopEvent]

/-- With the stop event set, two granted steps suffice for the loop thread to
exit from any position. -/
theorem exits_within_two (s : ProcState) (he : s.stopEvent = true) :
    (threadSteps 2 s).threadAlive = false := by
  by_cases ha : s.threadAlive = false
  · rw [threadSteps_dead 2 s ha]
    exact ha
  · cases hpc : s.pc with
    | atCheck =>
      have h1 : threadStep s = { s with threadAlive := false } := by
        unfold threadStep
        rw [if_neg ha, hpc, if_pos he]
      show (threadSteps 1 (threadStep s)).threadAlive = false
      rw [h1, threadSteps_dead 1 _ rfl]
    | midTick =>
      have h1 : threadStep s = { s with framesWritten := s.framesWritten + 1, pc := .atCheck } := by
        unfold threadStep
        rw [if_neg ha, hpc]
      have h2 : threadStep (threadStep s) =
          { s with framesWritten := s.framesWritten + 1, pc := .atCheck, threadAlive := false } := by
        rw [h1]
        unfold threadStep
        rw [if_neg ha]
        simp [he]
      show (threadSteps 0 (threadStep (threadStep s))).threadAlive = false
      rw [h2]
      rfl

end NewFEM

namespace NewFEM

theorem threadSteps_add (m n : ℕ) (s : ProcState) :
    threadSteps (n + m) s = threadSteps m (threadSteps n s) := by
  induction n generalizing s with
  | zero => simp [threadSteps]
  | succ n ih =>
    have h1 : threadSteps (n + 1 + m) s = threadSteps (n + m) (threadStep s) := by
      have : n + 1 + m = (n + m) + 1 := by omega
      rw [this]
      rfl
    rw [h1, ih]
    rfl

/-- C3 counterexample: with the loop thread mid-tick and granted no scheduler
steps during the bounded join (a thread blocked past the 2 s timeout),
`stop()` returns with status `STOPPED` while the thread is still alive, and
the thread's next step appends a further frame after `stop()` has returned. -/
theorem c3_stop_counterexample :
    (stopProc procMidTick 0).status = .stopped
    ∧ (stopProc procMidTick 0).threadAlive = true
    ∧ (threadStep (stopProc procMidTick 0)).framesWritten
        = (stopProc procMidTick 0).framesWritten + 1 := by
  decide

/-- C3 (amended): after `stop()` returns the status snapshot reports
`STOPPED`; if the loop thread did exit within the bounded join, no further
frames are ever appended; and whenever the join grants the thread at least two
steps (it is not blocked past the 2-second timeout), the thread has exited
before `stop()` returns. -/
theorem c3_stop_spec (s : ProcState) (k : ℕ) :
    (stopProc s k).status = .stopped
    ∧ ((stopProc s k).threadAlive = false →
        ∀ n, (threadSteps n (stopProc s k)).framesWritten
          = (stopProc s k).framesWritten)
    ∧ (2 ≤ k → (stopProc s k).threadAlive = false) := by
  refine ⟨?_, ?_, ?_⟩
  · unfold stopProc
    rw [threadSteps_status]
  · intro hdead n
    rw [threadSteps_dead n _ hdead]
  · intro hk
    unfold stopProc
    set s' : ProcState := { s with stopEvent := true, status := .stopped } with hs'
    have he : s'.stopEvent = true := rfl
    have hsplit : threadSteps k s' = threadSteps (k - 2) (threadSteps 2 s') := by
      have : k = 2 + (k - 2) := by omega
      rw [this, threadSteps_add]
      congr 1
      omega
    rw [hsplit, threadSteps_dead _ _ (exits_within_two s' he)]
    exact exits_within_two s' he

/-- C3 witness: with two granted steps the thread exits, status reads
`STOPPED`, and no later thread activity changes the frame count. -/
theorem c3_stop_spec_witness :
    (stopProc procMidTick 2).status = .stopped
    ∧ (threadSteps 5 (stopProc procMidTick 2)).framesWritten
        = (stopProc procMidTick 2).framesWritten
    ∧ (stopProc procMidTick 2).threadAlive = false :=
  ⟨(c3_stop_spec procMidTick 2).1,
   (c3_stop_spec procMidTick 2).2.1 ((c3_stop_spec procMidTick 2).2.2 (by decide)) 5,
   (c3_stop_spec procMidTick 2).2.2 (by decide)⟩

end NewFEM

/-! ## SocketServer (`backends/app/core/socket_server.py`)

The admission check at the top of `handle_client`, the broadcast loop of
`broadcast_message`, the `finally`-block disconnect, and the heartbeat
eviction, modelled over the insertion-ordered `clients` dict.  Whether a
`websocket.send` succeeds is abstracted into a `sendOk` oracle; a `False`
also covers an exception inside the per-client `try`. -/

namespace NewFEM

/-- `SocketClient` (the fields relevant to admission and broadcast). -/
structure SocketClient where
  clientId : String
  isAuthenticated : Bool
  subscriptions : List String
deriving DecidableEq, Repr

/-- `SocketServer` state: capacity and the insertion-ordered client dict. -/
structure SocketServer where
  maxClients : ℕ
  clients : List (String × SocketClient)
deriving DecidableEq, Repr

/-- A fresh server with no clients. -/
def SocketServer.freshServer (maxClients : ℕ) : SocketServer :=
  ⟨maxClients, []⟩

/-- Result of the admission check in `handle_client`. -/
inductive AdmitResult
  | rejected (closeCode : ℕ) (reason : String)
  | accepted (clientId : String)
deriving DecidableEq, Repr

/-- The capacity check and registration at the top of `handle_client`:
`if len(self.clients) >= self.max_clients: close(1013, "Server overloaded")`,
else create the `SocketClient` and insert it. -/
def SocketServer.handle_client_admission (s : SocketServer) (clientId : String) :
    SocketServer × AdmitResult :=
  if s.clients.length ≥ s.maxClients then
    (s, .rejected 1013 "Server overloaded")
  else
    ({ s with clients := s.clients ++ [(clientId, ⟨clientId, false, []⟩)] },
      .accepted clientId)

/-- `broadcast_message`: send to every client passing the filter, collect the
ids whose send failed, then delete those; returns the ids that received the
message. -/
def SocketServer.broadcast_message (s : SocketServer)
    (filt : SocketClient → Bool) (sendOk : String → Bool) :
    SocketServer × List String :=
  if s.clients = [] then (s, [])
  else
    let received := (s.clients.filter fun ic => filt ic.2 && sendOk ic.1).map Prod.fst
    let disconnected := (s.clients.filter fun ic => filt ic.2 && !sendOk ic.1).map Prod.fst
    ({ s with clients := s.clients.filter fun ic => !disconnected.contains ic.1 },
      received)

/-- The `finally` block of `handle_client`: remove the client. -/
def SocketServer.disconnect (s : SocketServer) (clientId : String) : SocketServer :=
  { s with clients := s.clients.filter fun ic => ic.1 ≠ clientId }

/-- The heartbeat loop's eviction of clients whose last pong timed out. -/
def SocketServer.evictDead (s : SocketServer) (deadIds : List String) : SocketServer :=
  { s with clients := s.clients.filter fun ic => !deadIds.contains ic.1 }

/-- One server event, for the capacity invariant over arbitrary histories. -/
inductive ServerOp
  | accept (clientId : String)
  | disconnect (clientId : String)
  | broadcast (filt : SocketClient → Bool) (sendOk : String → Bool)
  | evictDead (deadIds : List String)

/-- Apply one `ServerOp`. -/
def applyServerOp (s : SocketServer) : ServerOp → SocketServer
  | .accept cid => (s.handle_client_admission cid).1
  | .disconnect cid => s.disconnect cid
  | .broadcast filt sendOk => (s.broadcast_message filt sendOk).1
  | .evictDead ids => s.evictDead ids

/-- Apply a sequence of `ServerOp`s. -/
def applyServerOps (s : SocketServer) (ops : List ServerOp) : SocketServer :=
  ops.foldl applyServerOp s

theorem applyServerOp_invariant (s : SocketServer) (op : ServerOp)
    (h : s.clients.length ≤ s.maxClients) :
    (applyServerOp s op).clients.length ≤ (applyServerOp s op).maxClients
    ∧ (applyServerOp s op).maxClients = s.maxClients := by
  cases op with
  | accept cid =>
    simp only [applyServerOp, SocketServer.handle_client_admission]
    by_cases hfull : s.clients.length ≥ s.maxClients
    · rw [if_pos hfull]
      exact ⟨h, rfl⟩
    · rw [if_neg hfull]
      refine ⟨?_, rfl⟩
      simp only [List.length_append, List.length_cons, List.length_nil]
      omega
  | disconnect cid =>
    exact ⟨le_trans (List.length_filter_le _ _) h, rfl⟩
  | broadcast filt sendOk =>
    simp only [applyServerOp, SocketServer.broadcast_message]
    by_cases hempty : s.clients = []
    · rw [if_pos hempty]
      exact ⟨h, rfl⟩
    · rw [if_neg hempty]
      exact ⟨le_trans (List.length_filter_le _ _) h, rfl⟩
  | evictDead ids =>
    exact ⟨le_trans (List.length_filter_le _ _) h, rfl⟩

theorem applyServerOps_invariant (ops : List ServerOp) : ∀ s : SocketServer,
    s.clients.length ≤ s.maxClients →
    (applyServerOps s ops).clients.length ≤ (applyServerOps s ops).maxClients
    ∧ (applyServerOps s ops).maxClients = s.maxClients := by
  induction ops with
  | nil => intro s h; exact ⟨h, rfl⟩
  | cons op ops ih =>
    intro s h
    have hstep : applyServerOps s (op :: ops) = applyServerOps (applyServerOp s op) ops := rfl
    obtain ⟨h1, h2⟩ := applyServerOp_invariant s op h
    obtain ⟨h3, h4⟩ := ih (applyServerOp s op) h1
    exact ⟨hstep ▸ h3, by rw [hstep, h4, h2]⟩

/-- C9: the connected-client count never exceeds `maxClients` over any event
history; a connection arriving at capacity is rejected with the 1013
"Server overloaded" capacity error leaving the client set unchanged; and after
such a rejection a broadcast reaches exactly the clients it reached before. -/
theorem c9_capacity (m : ℕ) (s : SocketServer) (cid : String) :
    (∀ ops : List ServerOp,
      (applyServerOps (SocketServer.freshServer m) ops).clients.length ≤ m)
    ∧ (s.clients.length = s.maxClients →
        s.handle_client_admission cid = (s, .rejected 1013 "Server overloaded"))
    ∧ (s.clients.length = s.maxClients →
        ∀ (filt : SocketClient → Bool) (sendOk : String → Bool),
          (((s.handle_client_admission cid).1).broadcast_message filt sendOk).2
            = (s.broadcast_message filt sendOk).2) := by
  have hreject : s.clients.length = s.maxClients →
      s.handle_client_admission cid = (s, .rejected 1013 "Server overloaded") := by
    intro hfull
    unfold SocketServer.handle_client_admission
    rw [if_pos (le_of_eq hfull.symm)]
  refine ⟨?_, hreject, ?_⟩
  · intro ops
    have hfresh : (SocketServer.freshServer m).clients.length
        ≤ (SocketServer.freshServer m).maxClients := by
      simp [SocketServer.freshServer]
    obtain ⟨h1, h2⟩ := applyServerOps_invariant ops (SocketServer.freshServer m) hfresh
    rw [h2] at h1
    exact h1
  · intro hfull filt sendOk
    rw [hreject hfull]

/-- C9 witness: with `maxClients = 2` and two connected clients, a third
connection is rejected with the capacity error and a broadcast still reaches
both original clients. -/
theorem c9_capacity_witness :
    (applyServerOps (SocketServer.freshServer 2)
        [.accept "a", .accept "b", .accept "c"]).clients.length ≤ 2
    ∧ (let s2 := (applyServerOps (SocketServer.freshServer 2) [.accept "a", .accept "b"])
       s2.handle_client_admission "c" = (s2, .rejected 1013 "Server overloaded")) := by
  refine ⟨(c9_capacity 2 (SocketServer.freshServer 2) "c").1 _, ?_⟩
  exact (c9_capacity 2
    (applyServerOps (SocketServer.freshServer 2) [.accept "a", .accept "b"]) "c").2.1
    (by decide)

end NewFEM

namespace Py

/-- In-range list access with default 0.  Used only where the source either
guards the index in range or wraps the access in an `except` handler that
returns `0.0` (as `_calculate_slope` does). -/
def getD (l : List ℚ) (i : ℕ) : ℚ := (l.get? i).getD 0

end Py

/-! ## EnhancedPeakDetector (`backends/app/core/enhanced_peak_detector.py`) -/

namespace NewFEM

/-- `PeakDetectionConfig` with its dataclass defaults (these coincide with the
`settings` defaults `DataProcessor` passes in). -/
structure PeakDetectionConfig where
  threshold : ℚ := 105
  margin_frames : ℕ := 5
  difference_threshold : ℚ := 21 / 10
  min_region_length : ℕ := 3
  window_size : ℕ := 100
  slope_threshold : ℚ := 1 / 2
  min_slope_frames : ℕ := 3
  fall_threshold : ℚ := 100
  adaptive_threshold : Bool := true
  baseline_window : ℕ := 50
  baseline_multiplier : ℚ := 6 / 5
  min_dynamic_threshold : ℚ := 80
  max_dynamic_threshold : ℚ := 150
  noise_tolerance : ℚ := 1 / 10
  trend_compensation : Bool := true
deriving DecidableEq, Repr

/-- The default `PeakDetectionConfig()`. -/
def defaultPeakConfig : PeakDetectionConfig := {}

/-- The slope-estimation methods of `_calculate_slope`. -/
inductive SlopeMethod
  | central3
  | central5
  | forward2
  | backward2
  | adaptive
deriving DecidableEq, Repr

/-- `_calculate_slope`, `"central_3point"` branch.  All accesses are guarded
in range (and the source's `except` handler would return `0.0` anyway). -/
def calcSlope3 (d : List ℚ) (i : ℕ) : ℚ :=
  if i < 1 ∨ i ≥ d.length - 1 then 0
  else (Py.getD d (i + 1) - Py.getD d (i - 1)) / 2

/-- `_calculate_slope`, `"central_5point"` branch (falls back to the 3-point
method near the edges). -/
def calcSlope5 (d : List ℚ) (i : ℕ) : ℚ :=
  if i < 2 ∨ i ≥ d.length - 2 then calcSlope3 d i
  else (-(Py.getD d (i + 2)) + 8 * Py.getD d (i + 1)
        - 8 * Py.getD d (i - 1) + Py.getD d (i - 2)) / 12

/-- `_calculate_slope`, `"forward_2point"` branch. -/
def calcSlopeForward (d : List ℚ) (i : ℕ) : ℚ :=
  if i ≥ d.length - 1 then 0
  else Py.getD d (i + 1) - Py.getD d i

/-- `_calculate_slope`, `"backward_2point"` branch. -/
def calcSlopeBackward (d : List ℚ) (i : ℕ) : ℚ :=
  if i < 1 then 0
  else Py.getD d i - Py.getD d (i - 1)

/-- `EnhancedPeakDetector._calculate_slope` (total: every branch guards its
indices, and its `except (IndexError, ZeroDivisionError)` returns `0.0`). -/
def calcSlope (d : List ℚ) (i : ℕ) (m : SlopeMethod) : ℚ :=
  if i ≥ d.length then 0
  else
    match m with
    | .central3 => calcSlope3 d i
    | .central5 => calcSlope5 d i
    | .forward2 => calcSlopeForward d i
    | .backward2 => calcSlopeBackward d i
    | .adaptive =>
      if 2 ≤ i ∧ i < d.length - 2 then calcSlope5 d i
      else if 1 ≤ i ∧ i < d.length - 1 then calcSlope3 d i
      else if i < d.length - 1 then calcSlopeForward d i
      else calcSlopeBackward d i

/-- The inverse-distance weighted average over the enumerated slopes in
`_calculate_smoothed_slope`. -/
def weightedCenterStep (center : ℚ) (acc : ℚ × ℚ) (p : ℕ × ℚ) : Option (ℚ × ℚ) := do
  let q ← Py.div |(p.1 : ℚ) - center| (center + 1)
  let weight := 1 - q
  pure (acc.1 + p.2 * weight, acc.2 + weight)

/-- `EnhancedPeakDetector._calculate_smoothed_slope` (default window 3). -/
def calculate_smoothed_slope (d : List ℚ) (i : ℕ) (ws : ℕ := 3) : Option ℚ :=
  if i ≥ d.length then some 0
  else
    let lo := max 0 (i - ws / 2)
    let hi := min d.length (i + ws / 2 + 1)
    let slopes := ((Py.range (lo : ℤ) (hi : ℤ)).filter (· ≠ i)).map
      (fun j => calcSlope d j .central3)
    if slopes = [] then some 0
    else do
      let center := (slopes.length : ℚ) / 2
      let (wsum, tw) ← slopes.enum.foldlM (weightedCenterStep center) (0, 0)
      if tw > 0 then Py.div wsum tw else pure 0

/-- One term of the deviation-weighted average in `_calculate_robust_slope`. -/
def robustWeightStep (median mad : ℚ) (acc : ℚ × ℚ) (slope : ℚ) : Option (ℚ × ℚ) := do
  let q ← Py.div |slope - median| (mad + 1 / 1000000)
  let weight ← Py.div 1 (1 + q)
  pure (acc.1 + slope * weight, acc.2 + weight)

/-- `EnhancedPeakDetector._calculate_robust_slope`. -/
def calculate_robust_slope (d : List ℚ) (i : ℕ) : Option ℚ :=
  let slopes : List ℚ :=
    (if 1 ≤ i ∧ i < d.length - 1 then [calcSlope d i .central3] else [])
    ++ (if 2 ≤ i ∧ i < d.length - 2 then [calcSlope d i .central5] else [])
    ++ (if i < d.length - 1 then [calcSlope d i .forward2] else [])
    ++ (if 1 ≤ i then [calcSlope d i .backward2] else [])
  if slopes = [] then some 0
  else do
    let sortedSlopes := Py.sortedQ slopes
    let median ← Py.get sortedSlopes (slopes.length / 2)
    let mad ← Py.div (Py.sum (slopes.map (fun s => |s - median|))) (slopes.length : ℚ)
    let (wsum, tw) ← slopes.foldlM (robustWeightStep median mad) (0, 0)
    if tw > 0 then Py.div wsum tw else pure median

/-- The `0.5·robust + 0.3·adaptive + 0.2·smoothed` slope combination used
throughout `process_frame` and the rise/fall searches. -/
def combinedSlope (d : List ℚ) (j : ℕ) : Option ℚ := do
  let robust ← calculate_robust_slope d j
  let adaptive := calcSlope d j .adaptive
  let smoothed ← calculate_smoothed_slope d j
  pure (robust * (1 / 2) + adaptive * (3 / 10) + smoothed * (1 / 5))

end NewFEM

/-- Bind in `Option` is `some` when the head is and the continuation is. -/
theorem bindIsSome {α β : Type} {o : Option α} {f : α → Option β}
    (h1 : o.isSome) (h2 : ∀ a, o = some a → (f a).isSome) : (o >>= f).isSome := by
  obtain ⟨a, ha⟩ := Option.isSome_iff_exists.1 h1
  rw [ha]
  simpa using h2 a ha

namespace Py

theorem sum_nonneg {l : List ℚ} (h : ∀ x ∈ l, 0 ≤ x) : 0 ≤ Py.sum l := by
  have aux : ∀ (l : List ℚ) (a : ℚ), 0 ≤ a → (∀ x ∈ l, 0 ≤ x) → 0 ≤ l.foldl (· + ·) a := by
    intro l
    induction l with
    | nil => intro a ha _; exact ha
    | cons x xs ih =>
      intro a ha hx
      exact ih (a + x) (by have := hx x (by simp); linarith)
        (fun y hy => hx y (List.mem_cons_of_mem _ hy))
  exact aux l 0 le_rfl h

theorem div_eq_some {a b q : ℚ} (h : Py.div a b = some q) : q = a / b ∧ b ≠ 0 := by
  unfold Py.div at h
  by_cases hb : b = 0
  · rw [if_pos hb] at h; cases h
  · rw [if_neg hb] at h
    exact ⟨(Option.some_inj.1 h).symm, hb⟩

end Py

namespace NewFEM

theorem weightedCenterStep_isSome (center : ℚ) (hc : 0 ≤ center)
    (acc : ℚ × ℚ) (p : ℕ × ℚ) : (weightedCenterStep center acc p).isSome := by
  unfold weightedCenterStep
  apply bindIsSome
  · exact Py.div_isSome (by linarith)
  · intro a _
    simp

theorem calculate_smoothed_slope_isSome (d : List ℚ) (i ws : ℕ) :
    (calculate_smoothed_slope d i ws).isSome := by
  unfold calculate_smoothed_slope
  by_cases h1 : i ≥ d.length
  · rw [if_pos h1]; rfl
  · rw [if_neg h1]
    set slopes := ((Py.range ((max 0 (i - ws / 2) : ℕ) : ℤ)
        ((min d.length (i + ws / 2 + 1) : ℕ) : ℤ)).filter (· ≠ i)).map
      (fun j => calcSlope d j .central3) with hs
    by_cases h2 : slopes = []
    · rw [if_pos h2]; rfl
    · rw [if_neg h2]
      have hc : (0 : ℚ) ≤ (slopes.length : ℚ) / 2 := by positivity
      apply bindIsSome
      · exact foldlM_isSome _ _ _ (fun acc p _ => weightedCenterStep_isSome _ hc acc p)
      · intro p _
        obtain ⟨wsum, tw⟩ := p
        show (if tw > 0 then Py.div wsum tw else pure 0).isSome
        by_cases h3 : tw > 0
        · rw [if_pos h3]
          exact Py.div_isSome (ne_of_gt h3)
        · rw [if_neg h3]; rfl

theorem robustWeightStep_isSome (median mad : ℚ) (hm : 0 ≤ mad)
    (acc : ℚ × ℚ) (slope : ℚ) : (robustWeightStep median mad acc slope).isSome := by
  unfold robustWeightStep
  apply bindIsSome
  · exact Py.div_isSome (by positivity)
  · intro q hq
    obtain ⟨hqv, hne⟩ := Py.div_eq_some hq
    have hq0 : 0 ≤ q := by
      rw [hqv]
      have : (0 : ℚ) < mad + 1 / 1000000 := by positivity
      positivity
    apply bindIsSome
    · exact Py.div_isSome (by linarith)
    · intro a _
      simp

theorem calculate_robust_slope_isSome (d : List ℚ) (i : ℕ) :
    (calculate_robust_slope d i).isSome := by
  unfold calculate_robust_slope
  set slopes : List ℚ :=
    (if 1 ≤ i ∧ i < d.length - 1 then [calcSlope d i .central3] else [])
    ++ (if 2 ≤ i ∧ i < d.length - 2 then [calcSlope d i .central5] else [])
    ++ (if i < d.length - 1 then [calcSlope d i .forward2] else [])
    ++ (if 1 ≤ i then [calcSlope d i .backward2] else []) with hs
  by_cases h2 : slopes = []
  · rw [if_pos h2]; rfl
  · rw [if_neg h2]
    have hlen : 0 < slopes.length := List.length_pos.2 h2
    apply bindIsSome
    · apply Py.get_isSome
      unfold Py.sortedQ
      rw [Py.length_pySort]
      omega
    · intro median _
      apply bindIsSome
      · apply Py.div_isSome
        exact_mod_cast Nat.pos_iff_ne_zero.1 hlen
      · intro mad hmad
        obtain ⟨hmv, _⟩ := Py.div_eq_some hmad
        have hm0 : 0 ≤ mad := by
          rw [hmv]
          apply div_nonneg
          · apply Py.sum_nonneg
            intro x hx
            obtain ⟨s, _, hsx⟩ := List.mem_map.1 hx
            rw [← hsx]
            exact abs_nonneg _
          · exact_mod_cast Nat.zero_le _
        apply bindIsSome
        · exact foldlM_isSome _ _ _ (fun acc s _ => robustWeightStep_isSome median mad hm0 acc s)
        · intro p _
          obtain ⟨wsum, tw⟩ := p
          show (if tw > 0 then Py.div wsum tw else pure median).isSome
          by_cases h3 : tw > 0
          · rw [if_pos h3]
            exact Py.div_isSome (ne_of_gt h3)
          · rw [if_neg h3]; rfl

theorem combinedSlope_isSome (d : List ℚ) (j : ℕ) : (combinedSlope d j).isSome := by
  unfold combinedSlope
  apply bindIsSome
  · exact calculate_robust_slope_isSome d j
  · intro r _
    apply bindIsSome
    · exact calculate_smoothed_slope_isSome d j 3
    · intro s _
      simp

end NewFEM

namespace NewFEM

/-- The baseline window selected by `_calculate_dynamic_threshold`: the last
`baseline_window` frames, or the frames around `index` when one is given. -/
def baselineData (cfg : PeakDetectionConfig) (d : List ℚ) (index : Option ℕ) :
    List ℚ :=
  match index with
  | none => Py.sliceFrom d (-(cfg.baseline_window : ℤ))
  | some i =>
    Py.slice d ((i - cfg.baseline_window / 2 : ℕ) : ℤ)
      ((min d.length (i + cfg.baseline_window / 2) : ℕ) : ℤ)

/-- The final clamp of `_calculate_dynamic_threshold`. -/
def clampThreshold (cfg : PeakDetectionConfig) (x : ℚ) : ℚ :=
  max cfg.min_dynamic_threshold (min cfg.max_dynamic_threshold x)

/-- The least-squares trend-compensation term of
`_calculate_dynamic_threshold`. -/
def trendCompensation (cfg : PeakDetectionConfig) (d : List ℚ)
    (index : Option ℕ) : Option ℚ :=
  if cfg.trend_compensation = true ∧ index.isSome ∧ d.length > 10 then
    let recent := Py.sliceFrom d (-((min 20 d.length : ℕ) : ℤ))
    if recent.length ≥ 5 then
      let n := recent.length
      let x_sum : ℚ := Py.sum ((List.range n).map (fun k => (k : ℚ)))
      let y_sum := Py.sum recent
      let xy_sum : ℚ := Py.sum (recent.enum.map (fun p => (p.1 : ℚ) * p.2))
      let x2_sum : ℚ := Py.sum ((List.range n).map (fun k => (k : ℚ) * k))
      let denominator := (n : ℚ) * x2_sum - x_sum * x_sum
      if denominator ≠ 0 then do
        let slope ← Py.div ((n : ℚ) * xy_sum - x_sum * y_sum) denominator
        pure (slope * ((n : ℚ) - 1))
      else pure 0
    else pure 0
  else pure 0

/-- `EnhancedPeakDetector._calculate_dynamic_threshold`. -/
def calculate_dynamic_threshold (cfg : PeakDetectionConfig) (d : List ℚ)
    (index : Option ℕ) : Option ℚ :=
  if cfg.adaptive_threshold = false then some cfg.threshold
  else if d.length < cfg.baseline_window then some cfg.threshold
  else
    let bd := baselineData cfg d index
    if bd = [] then some cfg.threshold
    else do
      let bv := Py.sortedQ bd
      let q1 ← Py.get bv (bd.length / 4)
      let q3 ← Py.get bv (3 * bd.length / 4)
      let median ← Py.get bv (bd.length / 2)
      let noise_std ← Py.div (q3 - q1) (27 / 20)
      let trend ← trendCompensation cfg d index
      let base_threshold := median + noise_std * cfg.noise_tolerance + trend
      pure (clampThreshold cfg (base_threshold * cfg.baseline_multiplier))

/-- `EnhancedPeakDetector._get_adaptive_slope_threshold` (with `** 0.5`
abstracted into `sqrtQ`). -/
def get_adaptive_slope_threshold (cfg : PeakDetectionConfig)
    (sqrtQ : ℚ → ℚ) (d : List ℚ) : Option ℚ :=
  if d.length < 10 then some cfg.slope_threshold
  else
    let recent_slopes := (Py.range ((d.length - 10 : ℕ) : ℤ)
        ((d.length - 1 : ℕ) : ℤ)).map (fun i => |calcSlope d i .central3|)
    if recent_slopes = [] then some cfg.slope_threshold
    else do
      let avg ← Py.div (Py.sum recent_slopes) (recent_slopes.length : ℚ)
      let variance ← Py.div (Py.sum (recent_slopes.map (fun s => (s - avg) ^ 2)))
        (recent_slopes.length : ℚ)
      let slope_std := sqrtQ variance
      let adaptive_factor : ℚ :=
        if slope_std > 2 then 7 / 10
        else if slope_std < 1 / 2 then 13 / 10
        else 1
      pure (cfg.slope_threshold * adaptive_factor)

theorem trendCompensation_isSome (cfg : PeakDetectionConfig) (d : List ℚ)
    (index : Option ℕ) : (trendCompensation cfg d index).isSome := by
  unfold trendCompensation
  split
  · dsimp only
    split
    · split
      · apply bindIsSome
        · apply Py.div_isSome
          next h => exact h
        · intro a _
          simp
      · rfl
    · rfl
  · rfl

theorem calculate_dynamic_threshold_isSome (cfg : PeakDetectionConfig)
    (d : List ℚ) (index : Option ℕ) :
    (calculate_dynamic_threshold cfg d index).isSome := by
  unfold calculate_dynamic_threshold
  split
  · rfl
  · split
    · rfl
    · dsimp only
      split
      · rfl
      · next hbd =>
        have hlen : 0 < (baselineData cfg d index).length := List.length_pos.2 hbd
        have hbv : (Py.sortedQ (baselineData cfg d index)).length
            = (baselineData cfg d index).length := by
          unfold Py.sortedQ
          exact Py.length_pySort _ _
        apply bindIsSome
        · exact Py.get_isSome (by omega)
        · intro q1 _
          apply bindIsSome
          · exact Py.get_isSome (by omega)
          · intro q3 _
            apply bindIsSome
            · exact Py.get_isSome (by omega)
            · intro median _
              apply bindIsSome
              · exact Py.div_isSome (by norm_num)
              · intro noise_std _
                apply bindIsSome
                · exact trendCompensation_isSome cfg d index
                · intro trend _
                  simp

theorem get_adaptive_slope_threshold_isSome (cfg : PeakDetectionConfig)
    (sqrtQ : ℚ → ℚ) (d : List ℚ) :
    (get_adaptive_slope_threshold cfg sqrtQ d).isSome := by
  unfold get_adaptive_slope_threshold
  split
  · rfl
  · dsimp only
    split
    · rfl
    · next hne =>
      have hlen : 0 < (((Py.range ((d.length - 10 : ℕ) : ℤ)
          ((d.length - 1 : ℕ) : ℤ)).map (fun i => |calcSlope d i .central3|))).length :=
        List.length_pos.2 hne
      apply bindIsSome
      · exact Py.div_isSome (by exact_mod_cast Nat.pos_iff_ne_zero.1 hlen)
      · intro avg _
        apply bindIsSome
        · exact Py.div_isSome (by exact_mod_cast Nat.pos_iff_ne_zero.1 hlen)
        · intro variance _
          simp

end NewFEM

namespace NewFEM

/-- A loop body with conditional `return`: iterate `f` until it returns a
value (`some (some b)`), raising (`none`) aborts, falling through the whole
list yields `some none`. -/
def pyFirst {α β : Type} (l : List α) (f : α → Option (Option β)) :
    Option (Option β) :=
  match l with
  | [] => some none
  | a :: rest =>
    match f a with
    | none => none
    | some (some b) => some (some b)
    | some none => pyFirst rest f

/-- Inner accumulation of `_detect_rising_slope`: append the combined slope,
count it if above the adaptive slope threshold, add it to the total. -/
def riseInnerStep (d : List ℚ) (aThr : ℚ) (st : ℕ × ℚ × List ℚ) (j : ℕ) :
    Option (ℕ × ℚ × List ℚ) := do
  let cs ← combinedSlope d j
  pure ((if cs > aThr then st.1 + 1 else st.1), st.2.1 + cs, st.2.2 ++ [cs])

/-- Candidate scoring and best-tracking of one iteration of
`_detect_rising_slope`'s outer loop. -/
def riseOuterStep (cfg : PeakDetectionConfig) (d : List ℚ) (dyn aThr : ℚ)
    (st : Option ℕ × ℚ) (i : ℕ) : Option (Option ℕ × ℚ) := do
  let vi ← Py.get d i
  if vi > dyn then do
    let (rc, total, slopes) ← (Py.range (i : ℤ)
        ((min (i + cfg.min_slope_frames) d.length : ℕ) : ℤ)).foldlM
      (riseInnerStep d aThr) (0, 0, [])
    if rc ≥ cfg.min_slope_frames then do
      let avg ← Py.div total (slopes.length : ℚ)
      let mx ← Py.max? slopes
      let mn ← Py.min? slopes
      let q ← Py.div (mx - mn) (|avg| + 1 / 1000000)
      let score := (rc : ℚ) * avg * (1 - q)
      if score > st.2 then pure (some i, score) else pure st
    else pure st
  else pure st

/-- `EnhancedPeakDetector._detect_rising_slope`. -/
def detect_rising_slope (cfg : PeakDetectionConfig) (sqrtQ : ℚ → ℚ)
    (d : List ℚ) : Option (Option ℕ) :=
  if d.length < cfg.min_slope_frames + 2 then some none
  else do
    let dyn ← calculate_dynamic_threshold cfg d none
    let aThr ← get_adaptive_slope_threshold cfg sqrtQ d
    let (best, _) ← (Py.range 0
        ((d.length - cfg.min_slope_frames - 1 : ℕ) : ℤ)).foldlM
      (riseOuterStep cfg d dyn aThr) (none, 0)
    pure best

/-- Inner accumulation of `_detect_falling_slope`: append the combined slope,
count it if below the negated threshold, add its absolute value to the
total. -/
def fallInnerStep (d : List ℚ) (aThr : ℚ) (st : ℕ × ℚ × List ℚ) (j : ℕ) :
    Option (ℕ × ℚ × List ℚ) := do
  let cs ← combinedSlope d j
  pure ((if cs < -aThr then st.1 + 1 else st.1), st.2.1 + |cs|, st.2.2 ++ [cs])

/-- One iteration of `_detect_falling_slope`'s backward outer loop (the fall
threshold is `0.9 ×` the dynamic threshold recomputed around `i`). -/
def fallOuterStep (cfg : PeakDetectionConfig) (d : List ℚ) (aThr : ℚ)
    (st : Option ℕ × ℚ) (i : ℕ) : Option (Option ℕ × ℚ) := do
  let dynAt ← calculate_dynamic_threshold cfg d (some i)
  let dynFall := dynAt * (9 / 10)
  let vi ← Py.get d i
  if vi < dynFall then do
    let (fc, total, slopes) ← (Py.rangeDown (i : ℤ)
        ((max (i - cfg.min_slope_frames) 0 : ℕ) : ℤ)).foldlM
      (fallInnerStep d aThr) (0, 0, [])
    if fc ≥ cfg.min_slope_frames then do
      let avg ← Py.div total (slopes.length : ℚ)
      let mx ← Py.max? slopes
      let mn ← Py.min? slopes
      let q ← Py.div (mx - mn) (|avg| + 1 / 1000000)
      let score := (fc : ℚ) * avg * (1 - q)
      if score > st.2 then pure (some i, score) else pure st
    else pure st
  else pure st

/-- `EnhancedPeakDetector._detect_falling_slope`. -/
def detect_falling_slope (cfg : PeakDetectionConfig) (sqrtQ : ℚ → ℚ)
    (d : List ℚ) : Option (Option ℕ) :=
  if d.length < cfg.min_slope_frames + 2 then some none
  else do
    let aThr ← get_adaptive_slope_threshold cfg sqrtQ d
    let (best, _) ← (Py.rangeDown ((d.length - 1 : ℕ) : ℤ)
        ((cfg.min_slope_frames : ℕ) : ℤ)).foldlM
      (fallOuterStep cfg d aThr) (none, 0)
    pure best

/-- `EnhancedPeakDetector._analyze_detection_failure` reduced to its fallible
computations (its other statements only build log strings from the already
computed diagnostic dictionary): the early return when every value is at or
below the static threshold, else both full-window slope searches. -/
def analyze_detection_failure (cfg : PeakDetectionConfig) (sqrtQ : ℚ → ℚ)
    (w : List ℚ) : Option Unit := do
  let mv ← Py.max? w
  if mv ≤ cfg.threshold then pure ()
  else do
    let _ ← detect_rising_slope cfg sqrtQ w
    let _ ← detect_falling_slope cfg sqrtQ w
    pure ()

end NewFEM

namespace NewFEM

/-- Inner accumulation of `_detect_rising_slope_in_segment` (robust slope
only): `(rising_count, total_slope)`. -/
def segRiseStep (seg : List ℚ) (slope_threshold : ℚ) (st : ℕ × ℚ) (j : ℕ) :
    Option (ℕ × ℚ) := do
  let cs ← calculate_robust_slope seg j
  pure ((if cs > slope_threshold then st.1 + 1 else st.1), st.2 + cs)

/-- Inner accumulation of `_detect_falling_slope_in_segment`: both the count
and the total are accumulated under the negative-slope test. -/
def segFallStep (seg : List ℚ) (slope_threshold : ℚ) (st : ℕ × ℚ) (j : ℕ) :
    Option (ℕ × ℚ) := do
  let cs ← calculate_robust_slope seg j
  pure (if cs < -slope_threshold then (st.1 + 1, st.2 + |cs|) else st)

/-- `EnhancedPeakDetector._detect_rising_slope_in_segment` (its `offset`
parameter is unused in the source body and omitted; this search returns at
the first hit). -/
def detect_rising_slope_in_segment (cfg : PeakDetectionConfig)
    (seg : List ℚ) (threshold slope_threshold : ℚ) : Option (Option ℕ) :=
  pyFirst (Py.range 0 ((seg.length - cfg.min_slope_frames : ℕ) : ℤ)) fun i => do
    let vi ← Py.get seg i
    if vi > threshold then do
      let p ← (Py.range (i : ℤ)
          ((min (i + cfg.min_slope_frames) seg.length : ℕ) : ℤ)).foldlM
        (segRiseStep seg slope_threshold) (0, 0)
      if p.1 ≥ cfg.min_slope_frames ∧ p.2 > 0 then pure (some i) else pure none
    else pure none

/-- `EnhancedPeakDetector._detect_falling_slope_in_segment` (backward scan). -/
def detect_falling_slope_in_segment (cfg : PeakDetectionConfig)
    (seg : List ℚ) (slope_threshold : ℚ) : Option (Option ℕ) :=
  pyFirst (Py.rangeDown ((seg.length - 1 : ℕ) : ℤ) ((cfg.min_slope_frames : ℕ) : ℤ))
    fun i => do
      let p ← (Py.rangeDown (i : ℤ)
          ((max (i - cfg.min_slope_frames) 0 : ℕ) : ℤ)).foldlM
        (segFallStep seg slope_threshold) (0, 0)
      if p.1 ≥ cfg.min_slope_frames ∧ p.2 > 0 then pure (some i) else pure none

/-- The metrics dictionary of `_calculate_peak_quality`. -/
structure QualityMetrics where
  amplitude : ℚ
  width : ℕ
  symmetry : ℚ
  sharpness : ℚ
  signal_noise : ℚ
  trend_consistency : ℚ
deriving DecidableEq, Repr

/-- The result of `_calculate_peak_quality`; `metrics = none` models the empty
dictionary returned on the degenerate-range early exits. -/
structure PeakQuality where
  score : ℚ
  metrics : Option QualityMetrics
deriving DecidableEq, Repr

/-- The signal-to-noise metric of `_calculate_peak_quality`: amplitude over
the standard deviation of the last 20 frames (1.0 when the window is too
short). -/
def signalNoiseMetric (sqrtQ : ℚ → ℚ) (d : List ℚ) (amplitude : ℚ) :
    Option ℚ :=
  if d.length > 20 then do
    let region := Py.sliceFrom d (-(20 : ℤ))
    let bmean ← Py.div (Py.sum region) (region.length : ℚ)
    let bvar ← Py.div (Py.sum (region.map (fun x => (x - bmean) ^ 2)))
      (region.length : ℚ)
    let bnoise := if bvar > 0 then sqrtQ bvar else 1
    Py.div amplitude (bnoise + 1 / 1000000)
  else pure 1

/-- The trend-consistency metric of `_calculate_peak_quality` (1.0 when no
in-peak slopes exist). -/
def trendConsistencyMetric (d : List ℚ) (rise_pos fall_pos : ℕ) : Option ℚ :=
  let slopes_in_peak := (Py.range ((rise_pos : ℕ) : ℤ)
      ((min fall_pos (d.length - 1) : ℕ) : ℤ)).map
    (fun i => calcSlope d i .central3)
  if slopes_in_peak ≠ [] then do
    let avg ← Py.div (Py.sum slopes_in_peak) (slopes_in_peak.length : ℚ)
    let mx ← Py.max? slopes_in_peak
    let mn ← Py.min? slopes_in_peak
    let q ← Py.div (mx - mn) (|avg| + 1 / 1000000)
    pure (max 0 (1 - q))
  else pure 1

/-- `EnhancedPeakDetector._calculate_peak_quality` (divisions by nonzero
numeric literals are written with plain `/`, which cannot raise). -/
def calculate_peak_quality (_cfg : PeakDetectionConfig) (sqrtQ : ℚ → ℚ)
    (d : List ℚ) (rise_pos fall_pos : ℕ) : Option PeakQuality :=
  if rise_pos ≥ fall_pos ∨ fall_pos ≥ d.length then some ⟨0, none⟩
  else
    let peak_data := Py.slice d (rise_pos : ℤ) ((fall_pos + 1 : ℕ) : ℤ)
    if peak_data = [] then some ⟨0, none⟩
    else do
      let max_value ← Py.max? peak_data
      let min_value ← Py.min? (Py.slice d ((rise_pos - 5 : ℕ) : ℤ)
        ((fall_pos + 6 : ℕ) : ℤ))
      let peak_amplitude := max_value - min_value
      let peak_width := fall_pos - rise_pos
      let idx ← Py.indexOf peak_data max_value
      let symRaw ← Py.div ((idx : ℚ) - (peak_width : ℚ) / 2)
        ((peak_width : ℚ) / 2 + 1)
      let symmetry := |symRaw|
      let sharpness ← Py.div peak_amplitude ((peak_width : ℚ) + 1)
      let signal_noise ← signalNoiseMetric sqrtQ d peak_amplitude
      let trend_consistency ← trendConsistencyMetric d rise_pos fall_pos
      let score_components : List ℚ :=
        [min 1 (peak_amplitude / 20), min 1 ((peak_width : ℚ) / 10),
         max 0 (1 - symmetry), min 1 (sharpness / 2),
         min 1 (signal_noise / 5), trend_consistency]
      let weights : List ℚ := [2/10, 15/100, 15/100, 2/10, 2/10, 1/10]
      let score := Py.sum ((score_components.zip weights).map (fun p => p.1 * p.2))
      pure ⟨min 1 (max 0 score),
        some ⟨peak_amplitude, peak_width, symmetry, sharpness, signal_noise,
          trend_consistency⟩⟩

/-- `EnhancedPeakDetector._validate_peak_quality` (its `max_value` parameter
is unused in the source body; the symmetry and signal-to-noise checks only add
log reasons and do not affect validity). -/
def validate_peak_quality (cfg : PeakDetectionConfig) (sqrtQ : ℚ → ℚ)
    (d : List ℚ) (rise_pos fall_pos : ℕ) (_max_value : ℚ) :
    Option (Bool × ℚ) := do
  let q ← calculate_peak_quality cfg sqrtQ d rise_pos fall_pos
  let amplitude : ℚ := match q.metrics with | some m => m.amplitude | none => 0
  let width : ℕ := match q.metrics with | some m => m.width | none => 0
  let is_valid := !decide (q.score < 2/5) && !decide (amplitude < 5)
    && !decide (width < 2) && !decide (fall_pos - rise_pos > d.length / 3)
  pure (is_valid, q.score)

/-- The mean of the up-to-5 samples before the rise in
`_classify_waveform_color`; the fallback indexes `frame_data[rise_pos]`. -/
def beforeAverage (d : List ℚ) (rise_pos : ℕ) : Option ℚ :=
  let before_frames := max 3 (min 5 rise_pos)
  let before_values := Py.slice d ((rise_pos - before_frames : ℕ) : ℤ) (rise_pos : ℤ)
  if before_values ≠ [] then Py.div (Py.sum before_values) (before_values.length : ℚ)
  else Py.get d rise_pos

/-- The mean of the up-to-5 samples after the fall in
`_classify_waveform_color`; the fallback indexes `frame_data[fall_pos]`. -/
def afterAverage (d : List ℚ) (fall_pos : ℕ) : Option ℚ :=
  let after_frames := max 3 (min 5 (d.length - fall_pos - 1))
  let after_end := min d.length (fall_pos + after_frames + 1)
  let after_values := Py.slice d ((fall_pos + 1 : ℕ) : ℤ) ((after_end : ℕ) : ℤ)
  if after_values ≠ [] then Py.div (Py.sum after_values) (after_values.length : ℚ)
  else Py.get d fall_pos

/-- The body of `_classify_waveform_color`'s `try` block. -/
def classifyInner (cfg : PeakDetectionConfig) (d : List ℚ)
    (rise_pos fall_pos : ℕ) : Option (String × ℚ) := do
  let before_avg ← beforeAverage d rise_pos
  let after_avg ← afterAverage d fall_pos
  let difference := after_avg - before_avg
  if difference > cfg.difference_threshold then do
    let conf ← Py.div difference (cfg.difference_threshold * 2)
    pure ("green", min 1 conf)
  else do
    let conf ← Py.div difference cfg.difference_threshold
    pure ("red", max 0 conf)

/-- `EnhancedPeakDetector._classify_waveform_color`: any exception inside the
`try` yields `('red', 0.0)`. -/
def classify_waveform_color (cfg : PeakDetectionConfig) (d : List ℚ)
    (rise_pos fall_pos : ℕ) : String × ℚ :=
  (classifyInner cfg d rise_pos fall_pos).getD ("red", 0)

end NewFEM

namespace NewFEM

/-- One detected peak candidate of `_detect_multiple_peaks` (its stored
`quality_metrics` are not read afterwards and are omitted). -/
structure PeakInfo where
  rise_pos : ℕ
  fall_pos : ℕ
  confidence : ℚ
deriving DecidableEq, Repr

/-- `EnhancedPeakDetector._ranges_overlap`. -/
def ranges_overlap (r1 r2 : ℕ × ℕ) : Bool :=
  !(r1.2 < r2.1 || r2.2 < r1.1)

/-- The exclusive end of one search sub-segment of `_detect_multiple_peaks`
(`end = min(start + search_window, len(frame_data))`). -/
def mpStop (cfg : PeakDetectionConfig) (d : List ℚ) (start : ℕ) : ℕ :=
  min (start + cfg.min_slope_frames * 2) d.length

/-- One search sub-segment of `_detect_multiple_peaks`. -/
def mpSegment (cfg : PeakDetectionConfig) (d : List ℚ) (start : ℕ) : List ℚ :=
  Py.slice d ((start : ℕ) : ℤ) ((mpStop cfg d start : ℕ) : ℤ)

/-- One iteration of `_detect_multiple_peaks`' sliding search: the state is
the accumulated `(peaks, processed_ranges)`. -/
def mpStep (cfg : PeakDetectionConfig) (sqrtQ : ℚ → ℚ) (d : List ℚ)
    (dyn aThr : ℚ) (st : List PeakInfo × List (ℕ × ℕ)) (start : ℕ) :
    Option (List PeakInfo × List (ℕ × ℕ)) :=
  if st.2.any (fun pr => ranges_overlap (start, mpStop cfg d start) pr) then
    pure st
  else do
    let riseRes ← detect_rising_slope_in_segment cfg (mpSegment cfg d start)
      dyn aThr
    match riseRes with
    | none => pure st
    | some rr => do
      let fallRes ← detect_falling_slope_in_segment cfg
        (Py.sliceFrom d ((start + rr : ℕ) : ℤ)) aThr
      match fallRes with
      | none => pure st
      | some fr =>
        let rise_pos := start + rr
        let fall_pos := rise_pos + fr
        if rise_pos < fall_pos ∧ fall_pos - rise_pos ≥ cfg.min_slope_frames then do
          let q ← calculate_peak_quality cfg sqrtQ d rise_pos fall_pos
          if q.score > 3/10 then
            pure (st.1 ++ [⟨rise_pos, fall_pos, q.score⟩],
              st.2 ++ [(rise_pos, fall_pos)])
          else pure st
        else pure st

/-- The scan of `_deduplicate_peaks` over the rise-sorted list:
`last` is `deduplicated[-1]`. -/
def dedupGo (cfg : PeakDetectionConfig) (last : PeakInfo) :
    List PeakInfo → List PeakInfo
  | [] => [last]
  | p :: rest =>
    if (p.rise_pos : ℤ) - (last.fall_pos : ℤ) < (cfg.min_slope_frames : ℤ) then
      if p.confidence > last.confidence then dedupGo cfg p rest
      else dedupGo cfg last rest
    else last :: dedupGo cfg p rest

/-- `EnhancedPeakDetector._deduplicate_peaks` (stable sort by `rise_pos`,
then merge candidates closer than `min_slope_frames`, keeping the
higher-confidence one). -/
def deduplicate_peaks (cfg : PeakDetectionConfig) (peaks : List PeakInfo) :
    List PeakInfo :=
  if peaks.length ≤ 1 then peaks
  else
    match Py.pySort (fun a b => a.rise_pos ≤ b.rise_pos) peaks with
    | [] => []
    | p :: rest => dedupGo cfg p rest

/-- `EnhancedPeakDetector._detect_multiple_peaks`: sliding sub-segment scan,
deduplication, stable sort by confidence descending, cap at 5. -/
def detect_multiple_peaks (cfg : PeakDetectionConfig) (sqrtQ : ℚ → ℚ)
    (d : List ℚ) : Option (List PeakInfo) := do
  let dyn ← calculate_dynamic_threshold cfg d none
  let aThr ← get_adaptive_slope_threshold cfg sqrtQ d
  let searchWindow := cfg.min_slope_frames * 2
  let starts := Py.rangeStep (d.length - searchWindow) (searchWindow / 2)
  let (peaks, _) ← starts.foldlM (mpStep cfg sqrtQ d dyn aThr) ([], [])
  let deduped := deduplicate_peaks cfg peaks
  let ranked := Py.pySort (fun a b => b.confidence ≤ a.confidence) deduped
  pure (ranked.take 5)

/-- The detector's mutable state: the sliding frame buffer and the emitted
peak-region history. -/
structure PeakRegion where
  start_frame : ℤ
  end_frame : ℤ
  peak_frame : ℤ
  max_value : ℚ
  color : String
  confidence : ℚ
  difference : ℚ
deriving DecidableEq, Repr

structure DetectorState where
  frame_buffer : List ℚ
  peak_regions : List PeakRegion
deriving DecidableEq, Repr

/-- A fresh `EnhancedPeakDetector`'s state. -/
def initialDetectorState : DetectorState := ⟨[], []⟩

/-- The buffer truncation at the top of `process_frame`
(`if len > window_size: buffer = buffer[-window_size:]`). -/
def trimBuffer (cfg : PeakDetectionConfig) (buf : List ℚ) : List ℚ :=
  if buf.length > cfg.window_size then
    Py.sliceFrom buf (-(cfg.window_size : ℤ))
  else buf

/-- The window extracted by `process_frame`
(`buffer[-window_size:] if len(buffer) >= window_size else buffer`). -/
def detectorWindow (cfg : PeakDetectionConfig) (buf : List ℚ) : List ℚ :=
  if buf.length ≥ cfg.window_size then
    Py.sliceFrom buf (-(cfg.window_size : ℤ))
  else buf

/-- The per-frame slope diagnostics loop of `process_frame` (frames 2..14):
its stored values feed only log strings, but its computations can raise, so
they are evaluated and discarded. -/
def diagSlopePass (w : List ℚ) : Option Unit :=
  (Py.range 2 ((min (w.length - 1) 15 : ℕ) : ℤ)).foldlM
    (fun _ i => do
      let rob ← calculate_robust_slope w i
      let smo ← calculate_smoothed_slope w i
      let adaptive := calcSlope w i .adaptive
      let combined := rob * (1/2) + adaptive * (3/10) + smo * (1/5)
      let _ ← Py.div |rob - adaptive| (|combined| + 1/1000000)
      pure ())
    ()

/-- Python `max(all_peaks, key=lambda p: p['confidence'])`: the first element
of maximal confidence. -/
def pickBest (p : PeakInfo) (ps : List PeakInfo) : PeakInfo :=
  ps.foldl (fun acc q => if q.confidence > acc.confidence then q else acc) p

/-- The acceptance data computed by `process_frame` when the best candidate
passes validation. -/
structure AcceptedPeak where
  best : PeakInfo
  max_value : ℚ
  actual_peak_frame : ℤ
  color : String
  confidence : ℚ
  region : PeakRegion
deriving DecidableEq, Repr

/-- The window-analysis stage of `process_frame`: the diagnostics pass, the
multi-peak scan, best-candidate selection, validation, classification and
`PeakRegion` construction; `some none` is the no-peak outcome. -/
def processWindow (cfg : PeakDetectionConfig) (sqrtQ : ℚ → ℚ) (w : List ℚ)
    (frame_count : ℤ) : Option (Option AcceptedPeak) := do
  let _ ← diagSlopePass w
  let allPeaks ← detect_multiple_peaks cfg sqrtQ w
  match allPeaks with
  | [] => do
    let _ ← analyze_detection_failure cfg sqrtQ w
    pure none
  | p :: ps =>
    let best := pickBest p ps
    let seg := Py.slice w ((best.rise_pos : ℕ) : ℤ) ((best.fall_pos + 1 : ℕ) : ℤ)
    do
    let max_value ← Py.max? seg
    let idx ← Py.indexOf seg max_value
    let peak_pos_in_window := best.rise_pos + idx
    let actual_peak_frame : ℤ := frame_count - ((w.length : ℤ) - (peak_pos_in_window : ℤ))
    let v ← validate_peak_quality cfg sqrtQ w best.rise_pos best.fall_pos max_value
    if v.1 then do
      let cc := classify_waveform_color cfg w best.rise_pos best.fall_pos
      let vr ← Py.get w best.rise_pos
      let vf ← Py.get w best.fall_pos
      let region : PeakRegion :=
        ⟨max 0 (actual_peak_frame - (cfg.margin_frames : ℤ)),
         actual_peak_frame + (cfg.margin_frames : ℤ),
         actual_peak_frame, max_value, cc.1, cc.2, max_value - min vr vf⟩
      pure (some ⟨best, max_value, actual_peak_frame, cc.1, cc.2, region⟩)
    else pure none

/-- The per-tick result dictionary of `process_frame` (the diagnostic
sub-dictionary is log-only and omitted). -/
structure ProcessResult where
  peak_signal : Option ℕ
  peak_color : Option String
  peak_confidence : ℚ
  threshold : ℚ
  in_peak_region : Bool
  frame_count : ℤ
deriving DecidableEq, Repr

/-- `EnhancedPeakDetector.process_frame`. -/
def process_frame (cfg : PeakDetectionConfig) (sqrtQ : ℚ → ℚ)
    (st : DetectorState) (roi_gray_value : ℚ) (frame_count : ℤ) :
    Option (DetectorState × ProcessResult) := do
  let buf := trimBuffer cfg (st.frame_buffer ++ [roi_gray_value])
  if buf.length ≥ cfg.min_slope_frames + 2 then do
    let w := detectorWindow cfg buf
    let acc ← processWindow cfg sqrtQ w frame_count
    match acc with
    | some a =>
      pure (⟨buf, st.peak_regions ++ [a.region]⟩,
        ⟨some 1, some a.color, a.confidence, cfg.threshold, true, frame_count⟩)
    | none =>
      pure (⟨buf, st.peak_regions⟩,
        ⟨none, none, 0, cfg.threshold, false, frame_count⟩)
  else
    pure (⟨buf, st.peak_regions⟩,
      ⟨none, none, 0, cfg.threshold, false, frame_count⟩)

/-- Feed a list of `(value, frame_count)` inputs through `process_frame`
from a fresh detector, collecting every tick's result. -/
def runDetector (cfg : PeakDetectionConfig) (sqrtQ : ℚ → ℚ)
    (inputs : List (ℚ × ℤ)) : Option (DetectorState × List ProcessResult) :=
  inputs.foldlM
    (fun st vt => do
      let (st', r) ← process_frame cfg sqrtQ st.1 vt.1 vt.2
      pure (st', st.2 ++ [r]))
    (initialDetectorState, [])

end NewFEM

namespace Py

theorem mem_range_nat {a b k : ℕ} (h : k ∈ Py.range (a : ℤ) (b : ℤ)) :
    a ≤ k ∧ k < b := by
  unfold Py.range at h
  obtain ⟨j, hj, hk⟩ := List.mem_map.1 h
  rw [List.mem_range] at hj
  have ha : ((a : ℤ)).toNat = a := Int.toNat_ofNat a
  have hsub : (((b : ℤ) - (a : ℤ)).toNat) = b - a := by
    omega
  rw [hsub] at hj
  rw [ha] at hk
  omega

theorem range_ne_nil {a b : ℕ} (h : a < b) : Py.range (a : ℤ) (b : ℤ) ≠ [] := by
  unfold Py.range
  intro hc
  rw [List.map_eq_nil_iff, List.range_eq_nil] at hc
  omega

theorem range_nat_length (a b : ℕ) :
    (Py.range (a : ℤ) (b : ℤ)).length = b - a := by
  unfold Py.range
  rw [List.length_map, List.length_range]
  omega

theorem mem_rangeDown_nat {a b k : ℕ} (h : k ∈ Py.rangeDown (a : ℤ) (b : ℤ)) :
    b + 1 ≤ k ∧ k ≤ a := by
  unfold Py.rangeDown at h
  rw [List.mem_reverse] at h
  obtain ⟨j, hj, hk⟩ := List.mem_map.1 h
  rw [List.mem_range] at hj
  have hb : ((b : ℤ)).toNat = b := Int.toNat_ofNat b
  have hsub : (((a : ℤ) - (b : ℤ)).toNat) = a - b := by omega
  rw [hsub] at hj
  rw [hb] at hk
  omega

theorem rangeDown_ne_nil {a b : ℕ} (h : b < a) :
    Py.rangeDown (a : ℤ) (b : ℤ) ≠ [] := by
  unfold Py.rangeDown
  intro hc
  rw [List.reverse_eq_nil_iff, List.map_eq_nil_iff, List.range_eq_nil] at hc
  omega

theorem rangeDown_nat_length (a b : ℕ) :
    (Py.rangeDown (a : ℤ) (b : ℤ)).length = a - b := by
  unfold Py.rangeDown
  rw [List.length_reverse, List.length_map, List.length_range]
  omega

theorem foldl_max_mem (xs : List ℚ) (x : ℚ) :
    xs.foldl max x = x ∨ xs.foldl max x ∈ xs := by
  induction xs generalizing x with
  | nil => left; rfl
  | cons y ys ih =>
    simp only [List.foldl_cons]
    rcases ih (max x y) with h | h
    · rw [h]
      rcases max_choice x y with hc | hc
      · left; exact hc
      · right; rw [hc]; exact List.mem_cons_self _ _
    · right; exact List.mem_cons_of_mem _ h

theorem max?_mem {l : List ℚ} {m : ℚ} (h : Py.max? l = some m) : m ∈ l := by
  cases l with
  | nil => cases h
  | cons x xs =>
    unfold Py.max? at h
    have hm : m = xs.foldl max x := (Option.some_inj.1 h).symm
    subst hm
    rcases foldl_max_mem xs x with h1 | h1
    · rw [h1]; exact List.mem_cons_self _ _
    · exact List.mem_cons_of_mem _ h1

theorem sliceIdx_self (len : ℕ) : Py.sliceIdx len ((len : ℕ) : ℤ) = len := by
  unfold Py.sliceIdx
  simp

theorem sliceIdx_neg (len k : ℕ) (hk : k ≠ 0) :
    Py.sliceIdx len (-(k : ℤ)) = len - k := by
  unfold Py.sliceIdx
  rw [if_pos (by omega)]
  omega

theorem sliceFrom_neg_length (l : List ℚ) (k : ℕ) (hk : k ≠ 0) :
    (Py.sliceFrom l (-(k : ℤ))).length = min k l.length := by
  unfold Py.sliceFrom Py.slice
  rw [sliceIdx_self, sliceIdx_neg _ _ hk, List.length_drop, List.length_take]
  omega

theorem sliceFrom_neg_ne_nil {l : List ℚ} (k : ℕ) (h : l ≠ []) :
    Py.sliceFrom l (-(k : ℤ)) ≠ [] := by
  have hlen : 0 < l.length := List.length_pos.2 h
  intro hc
  have hL := congrArg List.length hc
  by_cases hk : k = 0
  · subst hk
    unfold Py.sliceFrom Py.slice at hL
    rw [sliceIdx_self] at hL
    have h2 : Py.sliceIdx l.length (-((0 : ℕ) : ℤ)) = 0 := by
      unfold Py.sliceIdx
      simp
    rw [h2, List.length_drop, List.length_take, List.length_nil] at hL
    omega
  · unfold Py.sliceFrom Py.slice at hL
    rw [sliceIdx_self, sliceIdx_neg _ _ hk, List.length_drop, List.length_take,
      List.length_nil] at hL
    omega

end Py

namespace NewFEM

/-- `pyFirst` succeeds when every body call does. -/
theorem pyFirst_isSome {α β : Type} {l : List α} {f : α → Option (Option β)}
    (h : ∀ a ∈ l, (f a).isSome) : (pyFirst l f).isSome := by
  induction l with
  | nil => rfl
  | cons a rest ih =>
    unfold pyFirst
    obtain ⟨r, hr⟩ := Option.isSome_iff_exists.1 (h a (by simp))
    rw [hr]
    cases r with
    | none => exact ih (fun x hx => h x (List.mem_cons_of_mem _ hx))
    | some b => rfl

/-- A value returned through `pyFirst` came from some element's body. -/
theorem pyFirst_eq_some {α β : Type} {l : List α} {f : α → Option (Option β)}
    {b : β} (h : pyFirst l f = some (some b)) : ∃ a ∈ l, f a = some (some b) := by
  induction l with
  | nil => cases h
  | cons a rest ih =>
    unfold pyFirst at h
    cases hfa : f a with
    | none => rw [hfa] at h; cases h
    | some r =>
      rw [hfa] at h
      cases r with
      | none =>
        obtain ⟨x, hx, hfx⟩ := ih h
        exact ⟨x, List.mem_cons_of_mem _ hx, hfx⟩
      | some b' =>
        cases Option.some_inj.1 h
        exact ⟨a, by simp, hfa⟩

end NewFEM

namespace Py

theorem slice_nat_length (l : List ℚ) (a b : ℕ) :
    (Py.slice l ((a : ℕ) : ℤ) ((b : ℕ) : ℤ)).length
      = min b l.length - min a l.length := by
  have ha : Py.sliceIdx l.length ((a : ℕ) : ℤ) = min l.length a := by
    unfold Py.sliceIdx
    rw [if_neg (by omega)]
    omega
  have hb : Py.sliceIdx l.length ((b : ℕ) : ℤ) = min l.length b := by
    unfold Py.sliceIdx
    rw [if_neg (by omega)]
    omega
  unfold Py.slice
  rw [ha, hb, List.length_drop, List.length_take]
  omega

theorem sliceFrom_nat_length (l : List ℚ) (a : ℕ) :
    (Py.sliceFrom l ((a : ℕ) : ℤ)).length = l.length - min l.length a := by
  unfold Py.sliceFrom
  rw [slice_nat_length l a l.length]
  omega

theorem get_mem {l : List ℚ} {i : ℕ} {x : ℚ} (h : Py.get l i = some x) : x ∈ l := by
  unfold Py.get at h
  exact List.get?_mem h

end Py

namespace NewFEM

theorem segRiseStep_isSome (seg : List ℚ) (sThr : ℚ) (st : ℕ × ℚ) (j : ℕ) :
    (segRiseStep seg sThr st j).isSome := by
  unfold segRiseStep
  apply bindIsSome
  · exact calculate_robust_slope_isSome seg j
  · intro cs _
    simp

theorem segFallStep_isSome (seg : List ℚ) (sThr : ℚ) (st : ℕ × ℚ) (j : ℕ) :
    (segFallStep seg sThr st j).isSome := by
  unfold segFallStep
  apply bindIsSome
  · exact calculate_robust_slope_isSome seg j
  · intro cs _
    simp

theorem detect_rising_slope_in_segment_isSome (cfg : PeakDetectionConfig)
    (seg : List ℚ) (thr sThr : ℚ) :
    (detect_rising_slope_in_segment cfg seg thr sThr).isSome := by
  unfold detect_rising_slope_in_segment
  apply pyFirst_isSome
  intro i hi
  have h0 : ((0 : ℕ) : ℤ) = (0 : ℤ) := rfl
  have hi' : i < seg.length - cfg.min_slope_frames := (Py.mem_range_nat (h0 ▸ hi)).2
  apply bindIsSome
  · exact Py.get_isSome (by omega)
  · intro vi _
    split
    · apply bindIsSome
      · exact foldlM_isSome _ _ _ (fun st j _ => segRiseStep_isSome seg sThr st j)
      · intro p _
        split
        · rfl
        · rfl
    · rfl

theorem detect_falling_slope_in_segment_isSome (cfg : PeakDetectionConfig)
    (seg : List ℚ) (sThr : ℚ) :
    (detect_falling_slope_in_segment cfg seg sThr).isSome := by
  unfold detect_falling_slope_in_segment
  apply pyFirst_isSome
  intro i _
  apply bindIsSome
  · exact foldlM_isSome _ _ _ (fun st j _ => segFallStep_isSome seg sThr st j)
  · intro p _
    split
    · rfl
    · rfl

/-- A hit of the in-segment falling search lies in the scanned index range. -/
theorem detect_falling_slope_in_segment_bound {cfg : PeakDetectionConfig}
    {seg : List ℚ} {sThr : ℚ} {fr : ℕ}
    (h : detect_falling_slope_in_segment cfg seg sThr = some (some fr)) :
    cfg.min_slope_frames + 1 ≤ fr ∧ fr ≤ seg.length - 1 ∧ 2 ≤ seg.length := by
  unfold detect_falling_slope_in_segment at h
  obtain ⟨i, hi, hfi⟩ := pyFirst_eq_some h
  have hmem := Py.mem_rangeDown_nat hi
  have hieq : i = fr := by
    cases hbody : (Py.rangeDown (i : ℤ)
        ((max (i - cfg.min_slope_frames) 0 : ℕ) : ℤ)).foldlM
        (segFallStep seg sThr) (0, 0) with
    | none => rw [hbody] at hfi; cases hfi
    | some p =>
      rw [hbody] at hfi
      simp only [Option.bind_eq_bind, Option.some_bind] at hfi
      by_cases hc : p.1 ≥ cfg.min_slope_frames ∧ p.2 > 0
      · rw [if_pos hc] at hfi
        exact (Option.some_inj.1 (Option.some_inj.1 hfi)).symm ▸ rfl
      · rw [if_neg hc] at hfi
        cases Option.some_inj.1 hfi
  subst hieq
  omega

/-- A hit of the in-segment rising search lies in the scanned index range. -/
theorem detect_rising_slope_in_segment_bound {cfg : PeakDetectionConfig}
    {seg : List ℚ} {thr sThr : ℚ} {rr : ℕ}
    (h : detect_rising_slope_in_segment cfg seg thr sThr = some (some rr)) :
    rr < seg.length - cfg.min_slope_frames := by
  unfold detect_rising_slope_in_segment at h
  obtain ⟨i, hi, hfi⟩ := pyFirst_eq_some h
  have h0 : ((0 : ℕ) : ℤ) = (0 : ℤ) := rfl
  have hmem := (Py.mem_range_nat (h0 ▸ hi)).2
  have hieq : i = rr := by
    cases hg : Py.get seg i with
    | none =>
      rw [hg] at hfi
      simp only [Option.bind_eq_bind, Option.none_bind] at hfi
      cases hfi
    | some vi =>
      rw [hg] at hfi
      simp only [Option.bind_eq_bind, Option.some_bind] at hfi
      by_cases hvi : vi > thr
      · rw [if_pos hvi] at hfi
        cases hbody : (Py.range (i : ℤ)
            ((min (i + cfg.min_slope_frames) seg.length : ℕ) : ℤ)).foldlM
            (segRiseStep seg sThr) (0, 0) with
        | none => rw [hbody] at hfi; cases hfi
        | some p =>
          rw [hbody] at hfi
          simp only [Option.bind_eq_bind, Option.some_bind] at hfi
          by_cases hc : p.1 ≥ cfg.min_slope_frames ∧ p.2 > 0
          · rw [if_pos hc] at hfi
            exact (Option.some_inj.1 (Option.some_inj.1 hfi)).symm ▸ rfl
          · rw [if_neg hc] at hfi
            cases Option.some_inj.1 hfi
      · rw [if_neg hvi] at hfi
        cases Option.some_inj.1 hfi
  subst hieq
  omega

end NewFEM

namespace NewFEM

theorem signalNoiseMetric_isSome (sqrtQ : ℚ → ℚ) (d : List ℚ)
    (amplitude : ℚ) (hsq : ∀ q, 0 ≤ sqrtQ q) :
    (signalNoiseMetric sqrtQ d amplitude).isSome := by
  unfold signalNoiseMetric
  split
  · next hlen20 =>
    have hr20 : (Py.sliceFrom d (-(20 : ℤ))).length = 20 := by
      have h := Py.sliceFrom_neg_length d 20 (by norm_num)
      have hcast : ((20 : ℕ) : ℤ) = (20 : ℤ) := rfl
      rw [hcast] at h
      omega
    apply bindIsSome
    · exact Py.div_isSome (by rw [hr20]; norm_num)
    · intro bmean _
      apply bindIsSome
      · exact Py.div_isSome (by rw [hr20]; norm_num)
      · intro bvar _
        apply Py.div_isSome
        have hbn : (0 : ℚ) ≤ (if bvar > 0 then sqrtQ bvar else 1) := by
          split
          · exact hsq bvar
          · norm_num
        have : (0 : ℚ) < (if bvar > 0 then sqrtQ bvar else 1) + 1 / 1000000 := by
          linarith
        exact ne_of_gt this
  · rfl

theorem trendConsistencyMetric_isSome (d : List ℚ) (rise_pos fall_pos : ℕ) :
    (trendConsistencyMetric d rise_pos fall_pos).isSome := by
  unfold trendConsistencyMetric
  dsimp only
  split
  · next hsl =>
    have hlen : 0 < ((Py.range ((rise_pos : ℕ) : ℤ)
        ((min fall_pos (d.length - 1) : ℕ) : ℤ)).map
      (fun i => calcSlope d i .central3)).length := List.length_pos.2 hsl
    apply bindIsSome
    · exact Py.div_isSome (by exact_mod_cast Nat.pos_iff_ne_zero.1 hlen)
    · intro avg _
      apply bindIsSome
      · exact Py.max?_isSome hsl
      · intro mx _
        apply bindIsSome
        · exact Py.min?_isSome hsl
        · intro mn _
          apply bindIsSome
          · apply Py.div_isSome
            have h1 : (0 : ℚ) < |avg| + 1 / 1000000 := by positivity
            exact ne_of_gt h1
          · intro q _
            simp
  · rfl

theorem calculate_peak_quality_isSome (cfg : PeakDetectionConfig)
    (sqrtQ : ℚ → ℚ) (d : List ℚ) (rise_pos fall_pos : ℕ)
    (hsq : ∀ q, 0 ≤ sqrtQ q) :
    (calculate_peak_quality cfg sqrtQ d rise_pos fall_pos).isSome := by
  unfold calculate_peak_quality
  split
  · rfl
  · next hrange =>
    push_neg at hrange
    obtain ⟨hrf, hfl⟩ := hrange
    dsimp only
    split
    · rfl
    · next hpd =>
      apply bindIsSome
      · exact Py.max?_isSome hpd
      · intro max_value hmax
        apply bindIsSome
        · apply Py.min?_isSome
          intro hc
          have hL := congrArg List.length hc
          rw [Py.slice_nat_length, List.length_nil] at hL
          omega
        · intro min_value _
          apply bindIsSome
          · exact Py.indexOf_isSome (Py.max?_mem hmax)
          · intro idx _
            apply bindIsSome
            · apply Py.div_isSome
              have : (0 : ℚ) ≤ ((fall_pos - rise_pos : ℕ) : ℚ) / 2 := by positivity
              linarith
            · intro symRaw _
              apply bindIsSome
              · apply Py.div_isSome
                have : (0 : ℚ) ≤ ((fall_pos - rise_pos : ℕ) : ℚ) := by positivity
                linarith
              · intro sharpness _
                apply bindIsSome
                · exact signalNoiseMetric_isSome sqrtQ d _ hsq
                · intro signal_noise _
                  apply bindIsSome
                  · exact trendConsistencyMetric_isSome d rise_pos fall_pos
                  · intro trend_consistency _
                    simp

theorem validate_peak_quality_isSome (cfg : PeakDetectionConfig)
    (sqrtQ : ℚ → ℚ) (d : List ℚ) (rise_pos fall_pos : ℕ) (mv : ℚ)
    (hsq : ∀ q, 0 ≤ sqrtQ q) :
    (validate_peak_quality cfg sqrtQ d rise_pos fall_pos mv).isSome := by
  unfold validate_peak_quality
  apply bindIsSome
  · exact calculate_peak_quality_isSome cfg sqrtQ d rise_pos fall_pos hsq
  · intro q _
    simp

/-- The validity flag implies the claimed interval upper bound. -/
theorem validate_peak_quality_width {cfg : PeakDetectionConfig}
    {sqrtQ : ℚ → ℚ} {d : List ℚ} {rise_pos fall_pos : ℕ} {mv : ℚ}
    {v : Bool × ℚ}
    (h : validate_peak_quality cfg sqrtQ d rise_pos fall_pos mv = some v)
    (hv : v.1 = true) : fall_pos - rise_pos ≤ d.length / 3 := by
  unfold validate_peak_quality at h
  cases hq : calculate_peak_quality cfg sqrtQ d rise_pos fall_pos with
  | none => rw [hq] at h; cases h
  | some q =>
    rw [hq] at h
    simp only [Option.bind_eq_bind, Option.some_bind] at h
    have hv1 := congrArg Prod.fst (Option.some_inj.1 h)
    rw [hv] at hv1
    simp only [Bool.and_eq_true, Bool.not_eq_true'] at hv1
    have hlast := hv1.2
    rw [decide_eq_false_iff_not] at hlast
    omega

end NewFEM

namespace NewFEM

theorem riseInnerStep_isSome (d : List ℚ) (aThr : ℚ) (st : ℕ × ℚ × List ℚ)
    (j : ℕ) : (riseInnerStep d aThr st j).isSome := by
  unfold riseInnerStep
  apply bindIsSome
  · exact combinedSlope_isSome d j
  · intro cs _
    simp

theorem fallInnerStep_isSome (d : List ℚ) (aThr : ℚ) (st : ℕ × ℚ × List ℚ)
    (j : ℕ) : (fallInnerStep d aThr st j).isSome := by
  unfold fallInnerStep
  apply bindIsSome
  · exact combinedSlope_isSome d j
  · intro cs _
    simp

theorem riseInner_length (d : List ℚ) (aThr : ℚ) (l : List ℕ) :
    ∀ (st r : ℕ × ℚ × List ℚ), l.foldlM (riseInnerStep d aThr) st = some r →
    r.2.2.length = st.2.2.length + l.length := by
  induction l with
  | nil =>
    intro st r hr
    simp only [List.foldlM_nil] at hr
    cases Option.some_inj.1 hr
    simp
  | cons j t ih =>
    intro st r hr
    simp only [List.foldlM_cons] at hr
    cases hst : riseInnerStep d aThr st j with
    | none => rw [hst] at hr; cases hr
    | some st' =>
      rw [hst] at hr
      simp only [Option.bind_eq_bind, Option.some_bind] at hr
      have hlen : st'.2.2.length = st.2.2.length + 1 := by
        unfold riseInnerStep at hst
        cases hcs : combinedSlope d j with
        | none => rw [hcs] at hst; cases hst
        | some cs =>
          rw [hcs] at hst
          simp only [Option.bind_eq_bind, Option.some_bind] at hst
          cases Option.some_inj.1 hst
          simp
      have := ih st' r hr
      rw [this, hlen]
      simp
      omega

theorem fallInner_length (d : List ℚ) (aThr : ℚ) (l : List ℕ) :
    ∀ (st r : ℕ × ℚ × List ℚ), l.foldlM (fallInnerStep d aThr) st = some r →
    r.2.2.length = st.2.2.length + l.length := by
  induction l with
  | nil =>
    intro st r hr
    simp only [List.foldlM_nil] at hr
    cases Option.some_inj.1 hr
    simp
  | cons j t ih =>
    intro st r hr
    simp only [List.foldlM_cons] at hr
    cases hst : fallInnerStep d aThr st j with
    | none => rw [hst] at hr; cases hr
    | some st' =>
      rw [hst] at hr
      simp only [Option.bind_eq_bind, Option.some_bind] at hr
      have hlen : st'.2.2.length = st.2.2.length + 1 := by
        unfold fallInnerStep at hst
        cases hcs : combinedSlope d j with
        | none => rw [hcs] at hst; cases hst
        | some cs =>
          rw [hcs] at hst
          simp only [Option.bind_eq_bind, Option.some_bind] at hst
          cases Option.some_inj.1 hst
          simp
      have := ih st' r hr
      rw [this, hlen]
      simp
      omega

theorem riseOuterStep_isSome (cfg : PeakDetectionConfig) (d : List ℚ)
    (dyn aThr : ℚ) (st : Option ℕ × ℚ) (i : ℕ)
    (hmsf : 1 ≤ cfg.min_slope_frames) (hi : i < d.length) :
    (riseOuterStep cfg d dyn aThr st i).isSome := by
  unfold riseOuterStep
  apply bindIsSome
  · exact Py.get_isSome hi
  · intro vi _
    split
    · apply bindIsSome
      · exact foldlM_isSome _ _ _ (fun a j _ => riseInnerStep_isSome d aThr a j)
      · intro p hp
        obtain ⟨rc, total, slopes⟩ := p
        have hslen : slopes.length
            = (Py.range (i : ℤ) ((min (i + cfg.min_slope_frames) d.length : ℕ) : ℤ)).length := by
          have := riseInner_length d aThr _ _ _ hp
          simpa using this
        rw [Py.range_nat_length] at hslen
        have hpos : 0 < slopes.length := by omega
        show (if rc ≥ cfg.min_slope_frames then _ else pure st : Option (Option ℕ × ℚ)).isSome
        split
        · apply bindIsSome
          · exact Py.div_isSome (by exact_mod_cast Nat.pos_iff_ne_zero.1 hpos)
          · intro avg _
            apply bindIsSome
            · exact Py.max?_isSome (by intro hc; rw [hc] at hpos; simp at hpos)
            · intro mx _
              apply bindIsSome
              · exact Py.min?_isSome (by intro hc; rw [hc] at hpos; simp at hpos)
              · intro mn _
                apply bindIsSome
                · exact Py.div_isSome (by positivity)
                · intro q _
                  dsimp only
                  split
                  · rfl
                  · rfl
        · rfl
    · rfl

theorem fallOuterStep_isSome (cfg : PeakDetectionConfig) (d : List ℚ)
    (aThr : ℚ) (st : Option ℕ × ℚ) (i : ℕ)
    (hmsf : 1 ≤ cfg.min_slope_frames) (hi : i < d.length) (hi1 : 1 ≤ i) :
    (fallOuterStep cfg d aThr st i).isSome := by
  unfold fallOuterStep
  apply bindIsSome
  · exact calculate_dynamic_threshold_isSome cfg d (some i)
  · intro dynAt _
    apply bindIsSome
    · exact Py.get_isSome hi
    · intro vi _
      split
      · apply bindIsSome
        · exact foldlM_isSome _ _ _ (fun a j _ => fallInnerStep_isSome d aThr a j)
        · intro p hp
          obtain ⟨fc, total, slopes⟩ := p
          have hslen : slopes.length
              = (Py.rangeDown (i : ℤ) ((max (i - cfg.min_slope_frames) 0 : ℕ) : ℤ)).length := by
            have := fallInner_length d aThr _ _ _ hp
            simpa using this
          rw [Py.rangeDown_nat_length] at hslen
          have hpos : 0 < slopes.length := by omega
          show (if fc ≥ cfg.min_slope_frames then _ else pure st : Option (Option ℕ × ℚ)).isSome
          split
          · apply bindIsSome
            · exact Py.div_isSome (by exact_mod_cast Nat.pos_iff_ne_zero.1 hpos)
            · intro avg _
              apply bindIsSome
              · exact Py.max?_isSome (by intro hc; rw [hc] at hpos; simp at hpos)
              · intro mx _
                apply bindIsSome
                · exact Py.min?_isSome (by intro hc; rw [hc] at hpos; simp at hpos)
                · intro mn _
                  apply bindIsSome
                  · exact Py.div_isSome (by positivity)
                  · intro q _
                    dsimp only
                    split
                    · rfl
                    · rfl
          · rfl
      · rfl

theorem detect_rising_slope_isSome (cfg : PeakDetectionConfig)
    (sqrtQ : ℚ → ℚ) (d : List ℚ) (hmsf : 1 ≤ cfg.min_slope_frames) :
    (detect_rising_slope cfg sqrtQ d).isSome := by
  unfold detect_rising_slope
  split
  · rfl
  · apply bindIsSome
    · exact calculate_dynamic_threshold_isSome cfg d none
    · intro dyn _
      apply bindIsSome
      · exact get_adaptive_slope_threshold_isSome cfg sqrtQ d
      · intro aThr _
        apply bindIsSome
        · apply foldlM_isSome
          intro a i hi
          have h0 : ((0 : ℕ) : ℤ) = (0 : ℤ) := rfl
          have hmem := (Py.mem_range_nat (h0 ▸ hi)).2
          exact riseOuterStep_isSome cfg d dyn aThr a i hmsf (by omega)
        · intro p _
          simp

theorem detect_falling_slope_isSome (cfg : PeakDetectionConfig)
    (sqrtQ : ℚ → ℚ) (d : List ℚ) (hmsf : 1 ≤ cfg.min_slope_frames) :
    (detect_falling_slope cfg sqrtQ d).isSome := by
  unfold detect_falling_slope
  split
  · rfl
  · apply bindIsSome
    · exact get_adaptive_slope_threshold_isSome cfg sqrtQ d
    · intro aThr _
      apply bindIsSome
      · apply foldlM_isSome
        intro a i hi
        have hmem := Py.mem_rangeDown_nat hi
        exact fallOuterStep_isSome cfg d aThr a i hmsf (by omega) (by omega)
      · intro p _
        simp

theorem analyze_detection_failure_isSome (cfg : PeakDetectionConfig)
    (sqrtQ : ℚ → ℚ) (w : List ℚ) (hw : w ≠ [])
    (hmsf : 1 ≤ cfg.min_slope_frames) :
    (analyze_detection_failure cfg sqrtQ w).isSome := by
  unfold analyze_detection_failure
  apply bindIsSome
  · exact Py.max?_isSome hw
  · intro mv _
    split
    · rfl
    · apply bindIsSome
      · exact detect_rising_slope_isSome cfg sqrtQ w hmsf
      · intro r1 _
        apply bindIsSome
        · exact detect_falling_slope_isSome cfg sqrtQ w hmsf
        · intro r2 _
          rfl

end NewFEM

namespace NewFEM

theorem mpStep_isSome (cfg : PeakDetectionConfig) (sqrtQ : ℚ → ℚ)
    (d : List ℚ) (dyn aThr : ℚ) (st : List PeakInfo × List (ℕ × ℕ))
    (start : ℕ) (hsq : ∀ q, 0 ≤ sqrtQ q) :
    (mpStep cfg sqrtQ d dyn aThr st start).isSome := by
  unfold mpStep
  split
  · rfl
  · apply bindIsSome
    · exact detect_rising_slope_in_segment_isSome cfg _ dyn aThr
    · intro riseRes _
      cases riseRes with
      | none => rfl
      | some rr =>
        apply bindIsSome
        · exact detect_falling_slope_in_segment_isSome cfg _ aThr
        · intro fallRes _
          cases fallRes with
          | none => rfl
          | some fr =>
            dsimp only
            split
            · apply bindIsSome
              · exact calculate_peak_quality_isSome cfg sqrtQ d _ _ hsq
              · intro q _
                split
                · rfl
                · rfl
            · rfl

/-- Case analysis of one `_detect_multiple_peaks` iteration: either the state
is unchanged, or one candidate with a valid rise/fall pair inside the window
was appended. -/
theorem mpStep_cases {cfg : PeakDetectionConfig} {sqrtQ : ℚ → ℚ}
    {d : List ℚ} {dyn aThr : ℚ} {st st' : List PeakInfo × List (ℕ × ℕ)}
    {start : ℕ} (h : mpStep cfg sqrtQ d dyn aThr st start = some st') :
    st' = st
    ∨ ∃ rise_pos fall_pos conf,
        st' = (st.1 ++ [⟨rise_pos, fall_pos, conf⟩], st.2 ++ [(rise_pos, fall_pos)])
        ∧ rise_pos < fall_pos
        ∧ cfg.min_slope_frames ≤ fall_pos - rise_pos
        ∧ fall_pos < d.length := by
  unfold mpStep at h
  split at h
  · left
    exact (Option.some_inj.1 h).symm
  · cases hrise : detect_rising_slope_in_segment cfg (mpSegment cfg d start) dyn aThr with
    | none => rw [hrise] at h; cases h
    | some riseRes =>
      rw [hrise] at h
      simp only [Option.bind_eq_bind, Option.some_bind] at h
      cases riseRes with
      | none => left; exact (Option.some_inj.1 h).symm
      | some rr =>
        dsimp only at h
        cases hfall : detect_falling_slope_in_segment cfg
            (Py.sliceFrom d ((start + rr : ℕ) : ℤ)) aThr with
        | none => rw [hfall] at h; cases h
        | some fallRes =>
          rw [hfall] at h
          simp only [Option.bind_eq_bind, Option.some_bind] at h
          cases fallRes with
          | none => left; exact (Option.some_inj.1 h).symm
          | some fr =>
            dsimp only at h
            split at h
            · next hcond =>
              cases hq : calculate_peak_quality cfg sqrtQ d (start + rr) (start + rr + fr) with
              | none => rw [hq] at h; cases h
              | some q =>
                rw [hq] at h
                simp only [Option.bind_eq_bind, Option.some_bind] at h
                split at h
                · right
                  refine ⟨start + rr, start + rr + fr, q.score,
                    (Option.some_inj.1 h).symm, hcond.1, hcond.2, ?_⟩
                  obtain ⟨hb1, hb2, hb3⟩ := detect_falling_slope_in_segment_bound hfall
                  have hrem : (Py.sliceFrom d ((start + rr : ℕ) : ℤ)).length
                      = d.length - min d.length (start + rr) :=
                    Py.sliceFrom_nat_length d (start + rr)
                  omega
                · left
                  exact (Option.some_inj.1 h).symm
            · left
              exact (Option.some_inj.1 h).symm

theorem detect_multiple_peaks_isSome (cfg : PeakDetectionConfig)
    (sqrtQ : ℚ → ℚ) (d : List ℚ) (hsq : ∀ q, 0 ≤ sqrtQ q) :
    (detect_multiple_peaks cfg sqrtQ d).isSome := by
  unfold detect_multiple_peaks
  apply bindIsSome
  · exact calculate_dynamic_threshold_isSome cfg d none
  · intro dyn _
    apply bindIsSome
    · exact get_adaptive_slope_threshold_isSome cfg sqrtQ d
    · intro aThr _
      apply bindIsSome
      · exact foldlM_isSome _ _ _ (fun a b _ => mpStep_isSome cfg sqrtQ d dyn aThr a b hsq)
      · intro p _
        simp

theorem dedupGo_mem {cfg : PeakDetectionConfig} :
    ∀ (l : List PeakInfo) (last x : PeakInfo), x ∈ dedupGo cfg last l →
    x = last ∨ x ∈ l := by
  intro l
  induction l with
  | nil =>
    intro last x hx
    unfold dedupGo at hx
    rcases List.mem_singleton.1 hx with h
    exact Or.inl h
  | cons p rest ih =>
    intro last x hx
    unfold dedupGo at hx
    split at hx
    · split at hx
      · rcases ih p x hx with h | h
        · right; rw [h]; exact List.mem_cons_self _ _
        · right; exact List.mem_cons_of_mem _ h
      · rcases ih last x hx with h | h
        · left; exact h
        · right; exact List.mem_cons_of_mem _ h
    · rcases List.mem_cons.1 hx with h | h
      · left; exact h
      · rcases ih p x h with h2 | h2
        · right; rw [h2]; exact List.mem_cons_self _ _
        · right; exact List.mem_cons_of_mem _ h2

theorem deduplicate_peaks_subset {cfg : PeakDetectionConfig}
    {peaks : List PeakInfo} {x : PeakInfo}
    (hx : x ∈ deduplicate_peaks cfg peaks) : x ∈ peaks := by
  unfold deduplicate_peaks at hx
  split at hx
  · exact hx
  · cases hms : Py.pySort (fun a b => a.rise_pos ≤ b.rise_pos) peaks with
    | nil => rw [hms] at hx; cases hx
    | cons p rest =>
      rw [hms] at hx
      have hmem : ∀ y, y ∈ p :: rest → y ∈ peaks := by
        intro y hy
        have : y ∈ Py.pySort (fun a b => a.rise_pos ≤ b.rise_pos) peaks := by
          rw [hms]; exact hy
        exact (Py.mem_pySort _ _ _).1 this
      rcases dedupGo_mem rest p x hx with h | h
      · rw [h]; exact hmem p (List.mem_cons_self _ _)
      · exact hmem x (List.mem_cons_of_mem _ h)

/-- Every candidate returned by `_detect_multiple_peaks` has its rise strictly
before its fall, spans at least `min_slope_frames`, and falls inside the
window. -/
theorem detect_multiple_peaks_mem {cfg : PeakDetectionConfig}
    {sqrtQ : ℚ → ℚ} {d : List ℚ} {peaks : List PeakInfo}
    (h : detect_multiple_peaks cfg sqrtQ d = some peaks) :
    ∀ p ∈ peaks, p.rise_pos < p.fall_pos
      ∧ cfg.min_slope_frames ≤ p.fall_pos - p.rise_pos
      ∧ p.fall_pos < d.length := by
  unfold detect_multiple_peaks at h
  cases hdyn : calculate_dynamic_threshold cfg d none with
  | none => rw [hdyn] at h; cases h
  | some dyn =>
    rw [hdyn] at h
    simp only [Option.bind_eq_bind, Option.some_bind] at h
    cases hthr : get_adaptive_slope_threshold cfg sqrtQ d with
    | none => rw [hthr] at h; cases h
    | some aThr =>
      rw [hthr] at h
      simp only [Option.bind_eq_bind, Option.some_bind] at h
      cases hfold : (Py.rangeStep (d.length - cfg.min_slope_frames * 2)
          (cfg.min_slope_frames * 2 / 2)).foldlM
          (mpStep cfg sqrtQ d dyn aThr) ([], []) with
      | none => rw [hfold] at h; cases h
      | some st =>
        rw [hfold] at h
        simp only [Option.bind_eq_bind, Option.some_bind] at h
        have hinv : ∀ p ∈ st.1, p.rise_pos < p.fall_pos
            ∧ cfg.min_slope_frames ≤ p.fall_pos - p.rise_pos
            ∧ p.fall_pos < d.length := by
          apply foldlM_invariant (P := fun (a : List PeakInfo × List (ℕ × ℕ)) =>
            ∀ p ∈ a.1, p.rise_pos < p.fall_pos
              ∧ cfg.min_slope_frames ≤ p.fall_pos - p.rise_pos
              ∧ p.fall_pos < d.length) (by intro p hp; cases hp)
            ?_ st hfold
          intro a b a' _ ha hstep
          rcases mpStep_cases hstep with heq | ⟨rise, fall, conf, heq, h1, h2, h3⟩
          · rw [heq]; exact ha
          · rw [heq]
            intro p hp
            rcases List.mem_append.1 hp with hmem | hmem
            · exact ha p hmem
            · rcases List.mem_singleton.1 hmem with rfl
              exact ⟨h1, h2, h3⟩
        intro p hp
        have hp' : p ∈ st.1 := by
          have h5 : peaks = (Py.pySort (fun a b => b.confidence ≤ a.confidence)
              (deduplicate_peaks cfg st.1)).take 5 :=
            (Option.some_inj.1 h).symm
          rw [h5] at hp
          have hp2 := List.take_subset _ _ hp
          have hp3 := (Py.mem_pySort _ _ _).1 hp2
          exact deduplicate_peaks_subset hp3
        exact hinv p hp'

end NewFEM

namespace NewFEM

/-- Python `max(l, key=...)` over a nonempty list, as `Option`. -/
def pickBestList : List PeakInfo → Option PeakInfo
  | [] => none
  | p :: ps => some (pickBest p ps)

theorem pickBest_mem (p : PeakInfo) (ps : List PeakInfo) :
    pickBest p ps ∈ p :: ps := by
  unfold pickBest
  suffices h : ∀ (l S : List PeakInfo) (acc : PeakInfo), acc ∈ S →
      (∀ x ∈ l, x ∈ S) →
      l.foldl (fun acc q => if q.confidence > acc.confidence then q else acc) acc ∈ S by
    exact h ps (p :: ps) p (List.mem_cons_self _ _)
      (fun x hx => List.mem_cons_of_mem _ hx)
  intro l
  induction l with
  | nil => intro S acc hacc _; exact hacc
  | cons y ys ih =>
    intro S acc hacc hl
    simp only [List.foldl_cons]
    apply ih
    · split
      · exact hl y (List.mem_cons_self _ _)
      · exact hacc
    · intro x hx
      exact hl x (List.mem_cons_of_mem _ hx)

theorem diagSlopePass_isSome (w : List ℚ) : (diagSlopePass w).isSome := by
  unfold diagSlopePass
  apply foldlM_isSome
  intro a i _
  apply bindIsSome
  · exact calculate_robust_slope_isSome w i
  · intro rob _
    apply bindIsSome
    · exact calculate_smoothed_slope_isSome w i 3
    · intro smo _
      apply bindIsSome
      · exact Py.div_isSome (by positivity)
      · intro q _
        rfl

theorem detectorWindow_ne_nil (cfg : PeakDetectionConfig) {buf : List ℚ}
    (h : buf ≠ []) : detectorWindow cfg buf ≠ [] := by
  unfold detectorWindow
  split
  · exact Py.sliceFrom_neg_ne_nil cfg.window_size h
  · exact h

theorem detectorWindow_length_le (cfg : PeakDetectionConfig) (buf : List ℚ)
    (hws : 1 ≤ cfg.window_size) :
    (detectorWindow cfg buf).length ≤ cfg.window_size := by
  unfold detectorWindow
  split
  · rw [Py.sliceFrom_neg_length buf cfg.window_size (by omega)]
    omega
  · next hlt => omega

theorem trimBuffer_ne_nil (cfg : PeakDetectionConfig) {buf : List ℚ}
    (h : buf ≠ []) : trimBuffer cfg buf ≠ [] := by
  unfold trimBuffer
  split
  · exact Py.sliceFrom_neg_ne_nil cfg.window_size h
  · exact h

theorem processWindow_isSome (cfg : PeakDetectionConfig) (sqrtQ : ℚ → ℚ)
    (w : List ℚ) (fc : ℤ) (hw : w ≠ [])
    (hmsf : 1 ≤ cfg.min_slope_frames) (hsq : ∀ q, 0 ≤ sqrtQ q) :
    (processWindow cfg sqrtQ w fc).isSome := by
  unfold processWindow
  apply bindIsSome
  · exact diagSlopePass_isSome w
  · intro u _
    apply bindIsSome
    · exact detect_multiple_peaks_isSome cfg sqrtQ w hsq
    · intro peaks hpeaks
      cases peaks with
      | nil =>
        apply bindIsSome
        · exact analyze_detection_failure_isSome cfg sqrtQ w hw hmsf
        · intro u2 _
          rfl
      | cons p ps =>
        dsimp only
        have hbest := pickBest_mem p ps
        obtain ⟨hrf, hdiff, hfl⟩ := detect_multiple_peaks_mem hpeaks (pickBest p ps) hbest
        have hseg : Py.slice w (((pickBest p ps).rise_pos : ℕ) : ℤ)
            (((pickBest p ps).fall_pos + 1 : ℕ) : ℤ) ≠ [] := by
          intro hc
          have hL := congrArg List.length hc
          rw [Py.slice_nat_length, List.length_nil] at hL
          omega
        apply bindIsSome
        · exact Py.max?_isSome hseg
        · intro mv hmv
          apply bindIsSome
          · exact Py.indexOf_isSome (Py.max?_mem hmv)
          · intro idx _
            apply bindIsSome
            · exact validate_peak_quality_isSome cfg sqrtQ w _ _ mv hsq
            · intro v _
              split
              · apply bindIsSome
                · exact Py.get_isSome (by omega)
                · intro vr _
                  apply bindIsSome
                  · exact Py.get_isSome (by omega)
                  · intro vf _
                    rfl
              · rfl

/-- Inversion of an accepting `processWindow` run: the accepted candidate is
the confidence-maximal element of the (non-empty) multi-peak scan and passed
validation. -/
theorem processWindow_accept {cfg : PeakDetectionConfig} {sqrtQ : ℚ → ℚ}
    {w : List ℚ} {fc : ℤ} {a : AcceptedPeak}
    (h : processWindow cfg sqrtQ w fc = some (some a)) :
    ∃ p ps v, detect_multiple_peaks cfg sqrtQ w = some (p :: ps)
      ∧ a.best = pickBest p ps
      ∧ validate_peak_quality cfg sqrtQ w a.best.rise_pos a.best.fall_pos
          a.max_value = some v
      ∧ v.1 = true := by
  unfold processWindow at h
  cases hdiag : diagSlopePass w with
  | none => rw [hdiag] at h; cases h
  | some u =>
    rw [hdiag] at h
    simp only [Option.bind_eq_bind, Option.some_bind] at h
    cases hmp : detect_multiple_peaks cfg sqrtQ w with
    | none => rw [hmp] at h; cases h
    | some peaks =>
      rw [hmp] at h
      simp only [Option.bind_eq_bind, Option.some_bind] at h
      cases peaks with
      | nil =>
        cases haf : analyze_detection_failure cfg sqrtQ w with
        | none => rw [haf] at h; cases h
        | some u2 =>
          rw [haf] at h
          simp only [Option.bind_eq_bind, Option.some_bind] at h
          cases Option.some_inj.1 h
      | cons p ps =>
        dsimp only at h
        cases hmax : Py.max? (Py.slice w (((pickBest p ps).rise_pos : ℕ) : ℤ)
            (((pickBest p ps).fall_pos + 1 : ℕ) : ℤ)) with
        | none => rw [hmax] at h; cases h
        | some mv =>
          rw [hmax] at h
          simp only [Option.bind_eq_bind, Option.some_bind] at h
          cases hidx : Py.indexOf (Py.slice w (((pickBest p ps).rise_pos : ℕ) : ℤ)
              (((pickBest p ps).fall_pos + 1 : ℕ) : ℤ)) mv with
          | none => rw [hidx] at h; cases h
          | some idx =>
            rw [hidx] at h
            simp only [Option.bind_eq_bind, Option.some_bind] at h
            cases hv : validate_peak_quality cfg sqrtQ w (pickBest p ps).rise_pos
                (pickBest p ps).fall_pos mv with
            | none => rw [hv] at h; cases h
            | some v =>
              rw [hv] at h
              simp only [Option.bind_eq_bind, Option.some_bind] at h
              by_cases hvalid : v.1 = true
              · rw [if_pos hvalid] at h
                cases hvr : Py.get w (pickBest p ps).rise_pos with
                | none => rw [hvr] at h; cases h
                | some vr =>
                  rw [hvr] at h
                  simp only [Option.bind_eq_bind, Option.some_bind] at h
                  cases hvf : Py.get w (pickBest p ps).fall_pos with
                  | none => rw [hvf] at h; cases h
                  | some vf =>
                    rw [hvf] at h
                    simp only [Option.bind_eq_bind, Option.some_bind] at h
                    have ha := Option.some_inj.1 (Option.some_inj.1 h)
                    refine ⟨p, ps, v, rfl, ?_, ?_, hvalid⟩
                    · rw [← ha]
                    · rw [← ha]
                      exact hv
              · rw [if_neg hvalid] at h
                cases Option.some_inj.1 h
  
end NewFEM

namespace NewFEM

theorem process_frame_isSome (cfg : PeakDetectionConfig) (sqrtQ : ℚ → ℚ)
    (st : DetectorState) (v : ℚ) (fc : ℤ)
    (hmsf : 1 ≤ cfg.min_slope_frames) (hsq : ∀ q, 0 ≤ sqrtQ q) :
    (process_frame cfg sqrtQ st v fc).isSome := by
  unfold process_frame
  dsimp only
  split
  · apply bindIsSome
    · apply processWindow_isSome cfg sqrtQ _ fc _ hmsf hsq
      apply detectorWindow_ne_nil
      apply trimBuffer_ne_nil
      simp
    · intro acc _
      cases acc with
      | none => rfl
      | some a => rfl
  · rfl

/-- Every `process_frame` result has `peak_signal ∈ {none, 1}`. -/
theorem process_frame_signal {cfg : PeakDetectionConfig} {sqrtQ : ℚ → ℚ}
    {st : DetectorState} {v : ℚ} {fc : ℤ}
    {out : DetectorState × ProcessResult}
    (h : process_frame cfg sqrtQ st v fc = some out) :
    out.2.peak_signal = none ∨ out.2.peak_signal = some 1 := by
  unfold process_frame at h
  dsimp only at h
  split at h
  · cases hpw : processWindow cfg sqrtQ
        (detectorWindow cfg (trimBuffer cfg (st.frame_buffer ++ [v]))) fc with
    | none => rw [hpw] at h; cases h
    | some acc =>
      rw [hpw] at h
      simp only [Option.bind_eq_bind, Option.some_bind] at h
      cases acc with
      | none =>
        left
        rw [← Option.some_inj.1 h]
      | some a =>
        right
        rw [← Option.some_inj.1 h]
  · left
    rw [← Option.some_inj.1 h]

/-- Inversion of an accepting `process_frame` call. -/
theorem process_frame_accept {cfg : PeakDetectionConfig} {sqrtQ : ℚ → ℚ}
    {st : DetectorState} {v : ℚ} {fc : ℤ}
    {out : DetectorState × ProcessResult}
    (h : process_frame cfg sqrtQ st v fc = some out)
    (hsig : out.2.peak_signal = some 1) :
    ∃ a, processWindow cfg sqrtQ
        (detectorWindow cfg (trimBuffer cfg (st.frame_buffer ++ [v]))) fc
      = some (some a) := by
  unfold process_frame at h
  dsimp only at h
  split at h
  · cases hpw : processWindow cfg sqrtQ
        (detectorWindow cfg (trimBuffer cfg (st.frame_buffer ++ [v]))) fc with
    | none => rw [hpw] at h; cases h
    | some acc =>
      rw [hpw] at h
      simp only [Option.bind_eq_bind, Option.some_bind] at h
      cases acc with
      | none =>
        rw [← Option.some_inj.1 h] at hsig
        cases hsig
      | some a => exact ⟨a, rfl⟩
  · rw [← Option.some_inj.1 h] at hsig
    cases hsig

/-- C2: for every finite input sequence (with a positive `min_slope_frames`
configuration, as deployed, and a nonnegative square root), every
`process_frame` tick returns without raising, and every returned
`peak_signal` is `None` or `1`. -/
theorem c2_process_frame_total (cfg : PeakDetectionConfig) (sqrtQ : ℚ → ℚ)
    (inputs : List (ℚ × ℤ)) (hmsf : 1 ≤ cfg.min_slope_frames)
    (hsq : ∀ q, 0 ≤ sqrtQ q) :
    ∃ out, runDetector cfg sqrtQ inputs = some out
      ∧ ∀ r ∈ out.2, r.peak_signal = none ∨ r.peak_signal = some 1 := by
  have hsome : (runDetector cfg sqrtQ inputs).isSome := by
    unfold runDetector
    apply foldlM_isSome
    intro a b _
    apply bindIsSome
    · exact process_frame_isSome cfg sqrtQ a.1 b.1 b.2 hmsf hsq
    · intro pr _
      rfl
  obtain ⟨out, hout⟩ := Option.isSome_iff_exists.1 hsome
  refine ⟨out, hout, ?_⟩
  unfold runDetector at hout
  apply foldlM_invariant
    (P := fun (a : DetectorState × List ProcessResult) =>
      ∀ r ∈ a.2, r.peak_signal = none ∨ r.peak_signal = some 1)
    (by intro r hr; cases hr) ?_ out hout
  intro a b a' _ ha hstep
  cases hpf : process_frame cfg sqrtQ a.1 b.1 b.2 with
  | none => rw [hpf] at hstep; cases hstep
  | some pr =>
    rw [hpf] at hstep
    simp only [Option.bind_eq_bind, Option.some_bind] at hstep
    have ha' : a' = (pr.1, a.2 ++ [pr.2]) := (Option.some_inj.1 hstep).symm
    rw [ha']
    intro r hr
    rcases List.mem_append.1 hr with hmem | hmem
    · exact ha r hmem
    · rcases List.mem_singleton.1 hmem with rfl
      exact process_frame_signal hpf

/-- C2 witness: the default configuration on a short concrete input run. -/
theorem c2_process_frame_total_witness :
    ∃ out, runDetector defaultPeakConfig (fun _ => 0) [(100, 1), (130, 2)] = some out
      ∧ ∀ r ∈ out.2, r.peak_signal = none ∨ r.peak_signal = some 1 :=
  c2_process_frame_total defaultPeakConfig (fun _ => 0) [(100, 1), (130, 2)]
    (by decide) (fun _ => le_refl 0)

/-- C5: whenever `process_frame` returns `peak_signal = 1`, the accepted
candidate (the confidence-maximal result of the multi-peak scan over the
current window) has its rise strictly before its fall, and the interval
satisfies `min_slope_frames ≤ fall − rise ≤ window_size / 2`. -/
theorem c5_accepted_peak_bounds (cfg : PeakDetectionConfig) (sqrtQ : ℚ → ℚ)
    (st : DetectorState) (v : ℚ) (fc : ℤ)
    (out : DetectorState × ProcessResult)
    (hws : 1 ≤ cfg.window_size)
    (heq : process_frame cfg sqrtQ st v fc = some out)
    (hsig : out.2.peak_signal = some 1) :
    ∃ peaks best,
      detect_multiple_peaks cfg sqrtQ
        (detectorWindow cfg (trimBuffer cfg (st.frame_buffer ++ [v]))) = some peaks
      ∧ pickBestList peaks = some best
      ∧ best.rise_pos < best.fall_pos
      ∧ cfg.min_slope_frames ≤ best.fall_pos - best.rise_pos
      ∧ ((best.fall_pos - best.rise_pos : ℕ) : ℚ) ≤ (cfg.window_size : ℚ) / 2 := by
  obtain ⟨a, hpw⟩ := process_frame_accept heq hsig
  obtain ⟨p, ps, vq, hmp, hbest, hval, hvalid⟩ := processWindow_accept hpw
  set w := detectorWindow cfg (trimBuffer cfg (st.frame_buffer ++ [v])) with hw
  obtain ⟨hrf, hdiff, hfl⟩ :=
    detect_multiple_peaks_mem hmp a.best (hbest ▸ pickBest_mem p ps)
  have hwidth : a.best.fall_pos - a.best.rise_pos ≤ w.length / 3 :=
    validate_peak_quality_width hval hvalid
  have hwlen : w.length ≤ cfg.window_size := detectorWindow_length_le cfg _ hws
  refine ⟨p :: ps, a.best, hmp, by rw [hbest]; rfl, hrf, hdiff, ?_⟩
  have h1 : ((a.best.fall_pos - a.best.rise_pos : ℕ) : ℚ)
      ≤ ((w.length / 3 : ℕ) : ℚ) := by
    exact_mod_cast hwidth
  have h2 : ((w.length / 3 : ℕ) : ℚ) ≤ (w.length : ℚ) / 3 := Nat.cast_div_le
  have h3 : (w.length : ℚ) ≤ (cfg.window_size : ℚ) := by exact_mod_cast hwlen
  have h4 : (0 : ℚ) ≤ (cfg.window_size : ℚ) := by positivity
  linarith

end NewFEM

namespace NewFEM

/-- A concrete buffer — a ramp up to 116 and back down, then a flat tail —
on which the detector accepts a peak. -/
def c5WitnessBuffer : List ℚ :=
  [100, 102, 104, 107, 110, 113, 116, 113, 110, 107, 104, 102]
    ++ List.replicate 33 100

/-- The concrete `process_frame` output on `c5WitnessBuffer`. -/
def c5WitnessOut : DetectorState × ProcessResult :=
  (⟨c5WitnessBuffer ++ [100], [⟨1, 11, 6, 116, "red", 0, 16⟩]⟩,
    ⟨some 1, some "red", 0, 105, true, 46⟩)

set_option maxRecDepth 10000 in
/-- C5 witness: a concrete tick that accepts a peak (rise 3, fall 12 in a
46-frame window), with the claimed interval bounds. -/
theorem c5_accepted_peak_bounds_witness :
    ∃ peaks best,
      detect_multiple_peaks defaultPeakConfig (fun _ => 0)
        (detectorWindow defaultPeakConfig
          (trimBuffer defaultPeakConfig (c5WitnessBuffer ++ [100]))) = some peaks
      ∧ pickBestList peaks = some best
      ∧ best.rise_pos < best.fall_pos
      ∧ defaultPeakConfig.min_slope_frames ≤ best.fall_pos - best.rise_pos
      ∧ ((best.fall_pos - best.rise_pos : ℕ) : ℚ)
          ≤ (defaultPeakConfig.window_size : ℚ) / 2 :=
  c5_accepted_peak_bounds defaultPeakConfig (fun _ => 0) ⟨c5WitnessBuffer, []⟩
    100 46 c5WitnessOut (by decide) (by with_unfolding_all decide) (by decide)

end NewFEM

namespace NewFEM

/-- C7: for an accepted peak (in-range rise/fall, so the before/after means
exist), the color is `green` with confidence `min(1, diff/(2·thr))` when the
after-minus-before difference exceeds `difference_threshold`, else `red` with
confidence `max(0, diff/thr)`; the confidence always lies in `[0, 1]`. -/
theorem c7_classify_color (cfg : PeakDetectionConfig) (d : List ℚ)
    (rise_pos fall_pos : ℕ) (b a : ℚ)
    (hthr : 0 < cfg.difference_threshold)
    (hb : beforeAverage d rise_pos = some b)
    (ha : afterAverage d fall_pos = some a) :
    (classify_waveform_color cfg d rise_pos fall_pos
      = if a - b > cfg.difference_threshold then
          ("green", min 1 ((a - b) / (cfg.difference_threshold * 2)))
        else ("red", max 0 ((a - b) / cfg.difference_threshold)))
    ∧ 0 ≤ (classify_waveform_color cfg d rise_pos fall_pos).2
    ∧ (classify_waveform_color cfg d rise_pos fall_pos).2 ≤ 1 := by
  have heq : classify_waveform_color cfg d rise_pos fall_pos
      = if a - b > cfg.difference_threshold then
          ("green", min 1 ((a - b) / (cfg.difference_threshold * 2)))
        else ("red", max 0 ((a - b) / cfg.difference_threshold)) := by
    unfold classify_waveform_color classifyInner
    rw [hb]
    simp only [Option.bind_eq_bind, Option.some_bind]
    rw [ha]
    simp only [Option.bind_eq_bind, Option.some_bind]
    by_cases hc : a - b > cfg.difference_threshold
    · rw [if_pos hc, if_pos hc]
      have hne : cfg.difference_threshold * 2 ≠ 0 := by positivity
      unfold Py.div
      rw [if_neg hne]
      rfl
    · rw [if_neg hc, if_neg hc]
      have hne : cfg.difference_threshold ≠ 0 := ne_of_gt hthr
      unfold Py.div
      rw [if_neg hne]
      rfl
  refine ⟨heq, ?_, ?_⟩
  · rw [heq]
    by_cases hc : a - b > cfg.difference_threshold
    · rw [if_pos hc]
      have h2 : (0 : ℚ) < (a - b) / (cfg.difference_threshold * 2) := by
        apply div_pos
        · linarith
        · positivity
      exact le_min (by norm_num) (le_of_lt h2)
    · rw [if_neg hc]
      exact le_max_left _ _
  · rw [heq]
    by_cases hc : a - b > cfg.difference_threshold
    · rw [if_pos hc]
      exact min_le_left _ _
    · rw [if_neg hc]
      apply max_le (by norm_num)
      rw [div_le_one hthr]
      linarith [not_lt.1 hc]

/-- C7 witness: the concrete before/after means exist and the classification
is `red` with confidence 0 for a drop of 5 against threshold 2.1. -/
theorem c7_classify_color_witness :
    (classify_waveform_color defaultPeakConfig
        [100, 100, 100, 107, 110, 113, 116, 100, 95, 95, 95] 3 7
      = if (95 : ℚ) - 100 > defaultPeakConfig.difference_threshold then
          ("green", min 1 (((95 : ℚ) - 100) / (defaultPeakConfig.difference_threshold * 2)))
        else ("red", max 0 (((95 : ℚ) - 100) / defaultPeakConfig.difference_threshold)))
    ∧ 0 ≤ (classify_waveform_color defaultPeakConfig
        [100, 100, 100, 107, 110, 113, 116, 100, 95, 95, 95] 3 7).2
    ∧ (classify_waveform_color defaultPeakConfig
        [100, 100, 100, 107, 110, 113, 116, 100, 95, 95, 95] 3 7).2 ≤ 1 :=
  c7_classify_color defaultPeakConfig
    [100, 100, 100, 107, 110, 113, 116, 100, 95, 95, 95] 3 7 100 95
    (by norm_num [defaultPeakConfig])
    (by with_unfolding_all decide) (by with_unfolding_all decide)

/-- C8: with adaptive thresholding disabled the computed threshold is exactly
the configured static threshold; with it enabled (and the window long enough
for the adaptive computation to run, on a sane `min ≤ max` configuration) the
computed dynamic threshold lies within
`[min_dynamic_threshold, max_dynamic_threshold]`. -/
theorem c8_dynamic_threshold_bounds (cfg : PeakDetectionConfig) (d : List ℚ)
    (index : Option ℕ) :
    (cfg.adaptive_threshold = false →
      calculate_dynamic_threshold cfg d index = some cfg.threshold)
    ∧ (cfg.adaptive_threshold = true →
        cfg.min_dynamic_threshold ≤ cfg.max_dynamic_threshold →
        cfg.baseline_window ≤ d.length →
        baselineData cfg d index ≠ [] →
        ∃ t, calculate_dynamic_threshold cfg d index = some t
          ∧ cfg.min_dynamic_threshold ≤ t ∧ t ≤ cfg.max_dynamic_threshold) := by
  constructor
  · intro h
    unfold calculate_dynamic_threshold
    rw [if_pos h]
  · intro h1 h2 h3 h4
    have hbd : 0 < (baselineData cfg d index).length := List.length_pos.2 h4
    have hbv : (Py.sortedQ (baselineData cfg d index)).length
        = (baselineData cfg d index).length := by
      unfold Py.sortedQ
      exact Py.length_pySort _ _
    obtain ⟨q1, hq1⟩ := Option.isSome_iff_exists.1
      (Py.get_isSome (l := Py.sortedQ (baselineData cfg d index))
        (i := (baselineData cfg d index).length / 4) (by omega))
    obtain ⟨q3, hq3⟩ := Option.isSome_iff_exists.1
      (Py.get_isSome (l := Py.sortedQ (baselineData cfg d index))
        (i := 3 * (baselineData cfg d index).length / 4) (by omega))
    obtain ⟨med, hmed⟩ := Option.isSome_iff_exists.1
      (Py.get_isSome (l := Py.sortedQ (baselineData cfg d index))
        (i := (baselineData cfg d index).length / 2) (by omega))
    obtain ⟨ns, hns⟩ := Option.isSome_iff_exists.1
      (Py.div_isSome (a := q3 - q1) (b := 27 / 20) (by norm_num))
    obtain ⟨tr, htr⟩ := Option.isSome_iff_exists.1
      (trendCompensation_isSome cfg d index)
    refine ⟨clampThreshold cfg ((med + ns * cfg.noise_tolerance + tr)
      * cfg.baseline_multiplier), ?_, le_max_left _ _,
      max_le h2 (min_le_left _ _)⟩
    unfold calculate_dynamic_threshold
    rw [if_neg (by rw [h1]; simp), if_neg (by omega)]
    dsimp only
    rw [if_neg h4, hq1]
    simp only [Option.bind_eq_bind, Option.some_bind]
    rw [hq3]
    simp only [Option.bind_eq_bind, Option.some_bind]
    rw [hmed]
    simp only [Option.bind_eq_bind, Option.some_bind]
    rw [hns]
    simp only [Option.bind_eq_bind, Option.some_bind]
    rw [htr]
    simp only [Option.bind_eq_bind, Option.some_bind]
    rfl

/-- C8 witness: static mode returns the configured threshold exactly; on a
50-frame window the adaptive threshold is clamped into `[80, 150]`. -/
theorem c8_dynamic_threshold_bounds_witness :
    (calculate_dynamic_threshold
        { defaultPeakConfig with adaptive_threshold := false }
        (List.replicate 50 (100 : ℚ)) none
      = some ({ defaultPeakConfig with adaptive_threshold := false }).threshold)
    ∧ ∃ t, calculate_dynamic_threshold defaultPeakConfig
          (List.replicate 50 (100 : ℚ)) none = some t
        ∧ defaultPeakConfig.min_dynamic_threshold ≤ t
        ∧ t ≤ defaultPeakConfig.max_dynamic_threshold :=
  ⟨(c8_dynamic_threshold_bounds
      { defaultPeakConfig with adaptive_threshold := false }
      (List.replicate 50 (100 : ℚ)) none).1 (by decide),
   (c8_dynamic_threshold_bounds defaultPeakConfig
      (List.replicate 50 (100 : ℚ)) none).2 (by decide)
     (by with_unfolding_all decide) (by decide) (by decide)⟩

end NewFEM
